import Mathlib

/-!
Verification of the flatban task-board core (index/cache consistency layer).

The JavaScript sources are shallowly embedded: file contents and identifiers
are `List Char`, JSON-ish documents are explicit structures, the filesystem is
an association list from column-directory id to the list of task files it
holds, and each mutation command is a pure function on that state.  JavaScript
string primitives used by the sources (`String.prototype.replace` with its
`$`-escape semantics, `trim`, `split`, `startsWith`, regex matching on the
restricted patterns the code uses) are modelled on `List Char`.
-/

set_option maxRecDepth 4000

namespace Flatban

abbrev Str := List Char

/-- Character list of a Lean string literal (used to write the embedded
JavaScript string constants). -/
def cl (s : String) : Str := s.data

/-- ASCII approximation of the JavaScript regex class `\s` (the sources only
ever feed ASCII whitespace to it). -/
def jsIsSpace (c : Char) : Bool :=
  c = ' ' ∨ c = '\t' ∨ c = '\n' ∨ c = '\r' ∨ c = Char.ofNat 11 ∨ c = Char.ofNat 12

/-- The JavaScript regex class `\w` = `[A-Za-z0-9_]`. -/
def isWordChar (c : Char) : Bool :=
  ('a' ≤ c ∧ c ≤ 'z') ∨ ('A' ≤ c ∧ c ≤ 'Z') ∨ ('0' ≤ c ∧ c ≤ '9') ∨ c = '_'

/-- JavaScript `String.prototype.trimEnd` (drop trailing whitespace). -/
def trimEnd (s : Str) : Str := (s.reverse.dropWhile jsIsSpace).reverse

/-- JavaScript `String.prototype.trim`. -/
def jsTrim (s : Str) : Str := trimEnd (s.dropWhile jsIsSpace)

/-- JavaScript `String.prototype.split` with a single-character separator:
`"a,,b".split(',') = ["a","","b"]`, `"".split(',') = [""]`. -/
def splitOnChar (sep : Char) : Str → List Str
  | [] => [[]]
  | c :: rest =>
    if c = sep then [] :: splitOnChar sep rest
    else match splitOnChar sep rest with
      | [] => [[c]]
      | p :: ps => (c :: p) :: ps

/-- JavaScript `Array.prototype.join` with a string separator. -/
def joinSep (sep : Str) : List Str → Str
  | [] => []
  | [x] => x
  | x :: y :: rest => x ++ sep ++ joinSep sep (y :: rest)

/-- Find the first occurrence of `pat` in `s`, returning the text before and
after it (the substring search underlying JavaScript's
`String.prototype.replace` with a string pattern). -/
def findSplit (pat : Str) : Str → Option (Str × Str)
  | [] => if pat = [] then some ([], []) else none
  | c :: rest =>
    if pat.isPrefixOf (c :: rest) then some ([], (c :: rest).drop pat.length)
    else match findSplit pat rest with
      | some (b, a) => some (c :: b, a)
      | none => none

/-- Expansion of `$`-escapes in a JavaScript replacement string: `$$` is a
literal dollar, `$&` the matched text, a dollar followed by a backtick the
text before the match, `$'` the text after it; anything else is literal. -/
def expandRepl (repl m before after : Str) : Str :=
  match repl with
  | [] => []
  | '$' :: '$' :: rest => '$' :: expandRepl rest m before after
  | '$' :: '&' :: rest => m ++ expandRepl rest m before after
  | '$' :: c :: rest =>
    if c = Char.ofNat 96 then before ++ expandRepl rest m before after
    else if c = Char.ofNat 39 then after ++ expandRepl rest m before after
    else '$' :: expandRepl (c :: rest) m before after
  | c :: rest => c :: expandRepl rest m before after

/-- JavaScript `s.replace(pat, repl)` with a plain-string pattern: replaces
only the first occurrence, applying the `$`-escape rules to `repl`. -/
def replaceFirst (s pat repl : Str) : Str :=
  match findSplit pat s with
  | some (b, a) => b ++ expandRepl repl pat b a ++ a
  | none => s

/-- A parsed frontmatter value: JavaScript strings or arrays of strings. -/
inductive FMValue where
  | str (s : Str)
  | list (l : List Str)
deriving DecidableEq, Repr

/-- JavaScript truthiness of a frontmatter value: the empty string is falsy,
every other string and every array (even `[]`) is truthy. -/
def FMValue.truthy : FMValue → Bool
  | .str s => s ≠ []
  | .list _ => true

/-- Association-list lookup (JavaScript property read on a parsed object). -/
def aLookup (l : List (Str × α)) (k : Str) : Option α :=
  match l with
  | [] => none
  | (k', v) :: rest => if k' = k then some v else aLookup rest k

/-- Association-list write (JavaScript property assignment: overwrite the
existing entry, else append). -/
def setKey (l : List (Str × α)) (k : Str) (v : α) : List (Str × α) :=
  match l with
  | [] => [(k, v)]
  | (k', v') :: rest => if k' = k then (k, v) :: rest else (k', v') :: setKey rest k v

/-- The regex fragment `\s*\n` matched greedily with backtracking: consume the
longest whitespace run that ends with a newline, i.e. everything up to and
including the last `\n` of the leading whitespace run; fail if the leading
whitespace contains no newline. -/
def consumeWsNewline : Str → Option Str
  | [] => none
  | c :: rest =>
    if jsIsSpace c then
      match consumeWsNewline rest with
      | some r => some r
      | none => if c = '\n' then some rest else none
    else none

/-- Search for the frontmatter terminator: the first position where `\n---`
occurs and is followed by `\s*\n` (the lazy group `(.*?)` of the frontmatter
regex stops at the first position where the rest of the pattern matches).
Returns the text before the terminator and the text after the consumed
`\n---\s*\n`. -/
def findFmEnd : Str → Option (Str × Str)
  | [] => none
  | c :: rest =>
    if (cl "\n---").isPrefixOf (c :: rest) then
      match consumeWsNewline ((c :: rest).drop 4) with
      | some r => some ([], r)
      | none =>
        match findFmEnd rest with
        | some (b, a) => some (c :: b, a)
        | none => none
    else
      match findFmEnd rest with
      | some (b, a) => some (c :: b, a)
      | none => none

/-- Strip one leading and one trailing quote character (single or double),
the effect of `value.replace(/^["']|["']$/g, '')`. -/
def stripQuotes (v : Str) : Str :=
  let isQuote : Char → Bool := fun c => c = '"' ∨ c = Char.ofNat 39
  let v1 := match v with
    | c :: rest => if isQuote c then rest else v
    | [] => v
  match v1.getLast? with
  | some c => if isQuote c then v1.dropLast else v1
  | none => v1

/-- Strip the leading `[` and one trailing `]`, the effect of
`value.replace(/^\[|\]$/g, '')`. -/
def stripBrackets (v : Str) : Str :=
  let v1 := match v with
    | c :: rest => if c = '[' then rest else v
    | [] => v
  match v1.getLast? with
  | some c => if c = ']' then v1.dropLast else v1
  | none => v1

/-- Value-typing branches of `parseFrontmatter` (utils.js lines 107-118):
explicit empty quotes, quoted string, bracketed comma-separated array, or the
raw string. -/
def parseValue (v : Str) : FMValue :=
  if v = cl "\"\"" ∨ v = [Char.ofNat 39, Char.ofNat 39] then .str []
  else if v.head? = some '"' ∨ v.head? = some (Char.ofNat 39) then .str (stripQuotes v)
  else if v.head? = some '[' then
    let inner := stripBrackets v
    if inner = [] then .list [] else .list ((splitOnChar ',' inner).map jsTrim)
  else .str v

/-- Match one frontmatter line against `^(\w+):\s*(.+)$` after trimming it
(utils.js lines 100-105), returning the key and the trimmed value. -/
def matchField (line : Str) : Option (Str × Str) :=
  let t := jsTrim line
  let key := t.takeWhile isWordChar
  let rest := t.drop key.length
  match rest with
  | ':' :: afterColon =>
    if key = [] then none
    else
      let v := afterColon.dropWhile jsIsSpace
      if v = [] then none else some (key, jsTrim v)
  | _ => none

/-- Fold the frontmatter lines into a parsed object (utils.js lines 96-120). -/
def parseFmLines (fmStr : Str) : List (Str × FMValue) :=
  (splitOnChar '\n' fmStr).foldl
    (fun parsed line =>
      match matchField line with
      | some (k, v) => setKey parsed k (parseValue v)
      | none => parsed)
    []

/-- Embedding of `parseFrontmatter` (utils.js lines 87-123): match
`^---\s*\n(.*?)\n---\s*\n(.*)$` with the `s` flag, parse the first group
line by line, and return the parsed object with the body; `none` is the
thrown `No valid frontmatter found` error. -/
def parseFrontmatter (content : Str) : Option (List (Str × FMValue) × Str) :=
  if (cl "---").isPrefixOf content then
    match consumeWsNewline (content.drop 3) with
    | none => none
    | some r =>
      match findFmEnd r with
      | none => none
      | some (fmStr, body) => some (parseFmLines fmStr, body)
  else none

/-- A JavaScript numeric slot that may hold NaN (`none`); `index.columns[c]++`
on a missing or NaN entry produces NaN. -/
abbrev JNum := Option Int

/-- A cache entry of `index.tasks` (the object literals built in create.js,
sync.js and server.js `rebuildIndex`). `created`/`modified` are the stat
timestamps in integer milliseconds; the key-irrelevant `body` field stored
only by the server's rebuild is not modelled. -/
structure TaskEntry where
  file : Str
  title : FMValue
  status : Str
  priority : FMValue
  tags : FMValue
  assigned : FMValue
  created : Nat
  modified : Nat
deriving DecidableEq, Repr

/-- The persisted `index.json` document. `last_sync` is an integer-millisecond
timestamp (`none` = JSON null). -/
structure Index where
  version : Str
  board_name : Str
  last_sync : Option Nat
  tasks : List (Str × TaskEntry)
  columns : List (Str × JNum)
deriving DecidableEq, Repr

/-- One column of the board configuration. -/
structure Column where
  id : Str
  name : Str
deriving DecidableEq, Repr

/-- The notifications sub-object of the configuration. -/
structure Notifications where
  enabled : Bool
  all_changes : Bool
  notify_columns : List Str
deriving DecidableEq, Repr

/-- The board configuration; `notifications` is `none` when the in-memory
config object has no `notifications` property (as after `parseSimpleYaml`). -/
structure Config where
  name : Str
  columns : List Column
  priorities : List Str
  notifications : Option Notifications
deriving DecidableEq, Repr

/-- A task file on disk: its name within the column directory, its full text
content, and its modification time in integer milliseconds. -/
structure TaskFile where
  filename : Str
  content : Str
  mtime : Nat
deriving DecidableEq, Repr

/-- The board's on-disk state under `.flatban/`: one directory of task files
per column id. A column id absent from the list is a missing directory. -/
structure FileSys where
  dirs : List (Str × List TaskFile)
deriving DecidableEq, Repr

/-- The files of a column directory, `none` when the directory is missing. -/
def dirFiles (fs : FileSys) (colId : Str) : Option (List TaskFile) :=
  aLookup fs.dirs colId

/-- `fs.readdirSync(columnDir).filter(f => f.endsWith('.md'))`. -/
def mdFiles (d : List TaskFile) : List TaskFile :=
  d.filter (fun f => (cl ".md").isSuffixOf f.filename)

/-- The empty index returned by `loadIndex` (utils.js lines 131-139 and
146-153) when `index.json` is missing or fails to parse: empty task and
column mappings and a null `last_sync`. -/
def emptyIndex : Index :=
  ⟨cl "1.0", cl "Untitled Board", none, [], []⟩

/-- The character table `BASE36_CHARS` (utils.js line 6). -/
def base36Chars : Str := cl "0123456789abcdefghijklmnopqrstuvwxyz"

/-- Digit lookup into `BASE36_CHARS`. -/
def base36Char (d : Fin 36) : Char := base36Chars.get ⟨d.1, by cases d with | mk v h => simpa [base36Chars, cl] using h⟩

/-- Digits of `n.toString(36)`, most significant first, with enough fuel to
cover every digit (structural recursion so the kernel can evaluate it). -/
def toBase36Aux : Nat → Nat → Str
  | _, 0 => []
  | n, fuel + 1 =>
    if h : n < 36 then [base36Char ⟨n, h⟩]
    else toBase36Aux (n / 36) fuel ++ [base36Char ⟨n % 36, Nat.mod_lt n (by norm_num)⟩]

/-- `n.toString(36)` for a nonnegative integer. -/
def toBase36 (n : Nat) : Str := toBase36Aux n (n + 1)

/-- `s.padStart(n, c)`. -/
def padStart (n : Nat) (c : Char) (s : Str) : Str :=
  List.replicate (n - s.length) c ++ s

/-- The timestamp half of a task id (utils.js lines 21-25): the seconds since
2000-01-01 rendered in base 36 and padded to at least 4 characters. -/
def timestampComponent (secondsSince2000 : Nat) : Str :=
  padStart 4 '0' (toBase36 secondsSince2000)

/-- One candidate id (utils.js lines 14-27): 3 random base-36 characters
followed by the timestamp component. -/
def taskIdCandidate (rand : Fin 36 × Fin 36 × Fin 36) (secondsSince2000 : Nat) : Str :=
  [base36Char rand.1, base36Char rand.2.1, base36Char rand.2.2] ++
    timestampComponent secondsSince2000

/-- Embedding of `generateTaskId` (utils.js lines 12-36): up to 100 attempts,
each drawing 3 random base-36 characters (`rands` is the random stream) and
rejecting candidates already present in `index.tasks`; `none` is the thrown
exhaustion error. -/
def generateTaskIdAux (tasks : List (Str × TaskEntry)) (rands : Nat → Fin 36 × Fin 36 × Fin 36)
    (secondsSince2000 : Nat) : Nat → Option Str
  | 0 => none
  | fuel + 1 =>
    let attempt := 100 - (fuel + 1)
    let candidate := taskIdCandidate (rands attempt) secondsSince2000
    if aLookup tasks candidate = none then some candidate
    else generateTaskIdAux tasks rands secondsSince2000 fuel

/-- `generateTaskId(index)` with 100 attempts. -/
def generateTaskId (tasks : List (Str × TaskEntry)) (rands : Nat → Fin 36 × Fin 36 × Fin 36)
    (secondsSince2000 : Nat) : Option Str :=
  generateTaskIdAux tasks rands secondsSince2000 100

/-- Errors surfaced by the embedded operations. -/
inductive OpError where
  | usage
  | notFound (msg : Str)
  | ambiguous (ms : List Str)
  | invalidColumn
  | invalidPriority
  | idExhausted
  | fileMissing
deriving DecidableEq, Repr

/-- Embedding of `findTaskByPartialId` (utils.js lines 187-199): filter the
task keys by `startsWith(partialId)`; zero matches throw the not-found error,
more than one the ambiguity error, otherwise the unique match is returned. -/
def findTaskByPartialId (tasks : List (Str × TaskEntry)) (pid : Str) :
    Except OpError Str :=
  let ms := (tasks.map Prod.fst).filter (fun id => pid.isPrefixOf id)
  if ms.length = 0 then .error (.notFound pid)
  else if 1 < ms.length then .error (.ambiguous ms)
  else .ok (ms.headD [])

/-! ## Config store (utils.js `parseSimpleYaml`, config.js `configToYaml`) -/

/-- Section state of the line-oriented YAML parser. -/
inductive YamlSection where
  | columns
  | priorities
deriving DecidableEq, Repr

/-- Match a trimmed line against `^name:\s*"?([^"]+)"?` and return the capture
with its quotes removed.  (Regex backtracking on degenerate lines whose
capture would consist of whitespace swallowed back from `\s*` is not
reproduced; such lines never arise from `configToYaml` output.) -/
def matchNameLine (t : Str) : Option Str :=
  if (cl "name:").isPrefixOf t then
    let r := (t.drop 5).dropWhile jsIsSpace
    match r with
    | '"' :: rest =>
      let cap := rest.takeWhile (fun c => c ≠ '"')
      if cap = [] then none else some cap
    | [] => none
    | _ => some (r.takeWhile (fun c => c ≠ '"'))
  else none

/-- Match a trimmed line against `^-\s+id:\s+(\S+)` and return the capture:
a dash, at least one whitespace character (`\s+` taken greedily), the literal
`id:`, at least one more whitespace character, then the maximal non-whitespace
run as capture. -/
def matchColIdLine (t : Str) : Option Str :=
  match t with
  | '-' :: c :: r =>
    if jsIsSpace c then
      let r2 := r.dropWhile jsIsSpace
      if (cl "id:").isPrefixOf r2 then
        match r2.drop 3 with
        | d :: r3 =>
          if jsIsSpace d then
            let capt := (r3.dropWhile jsIsSpace).takeWhile (fun c => ¬ jsIsSpace c)
            if capt = [] then none else some capt
          else none
        | [] => none
      else none
    else none
  | _ => none

/-- Match a trimmed line against `^\s+name:\s*"?([^"]+)"?`.  The pattern
requires leading whitespace, which a trimmed line never has, so this branch
of `parseSimpleYaml` (utils.js line 68) is dead code; it is kept for
faithfulness. -/
def matchColNameLine (t : Str) : Option Str :=
  match t with
  | c :: rest =>
    if jsIsSpace c then matchNameLine ((c :: rest).dropWhile jsIsSpace) else none
  | [] => none

/-- Match a trimmed line against `^-\s+(\S+)` and return the capture: a dash,
at least one whitespace character, then the maximal non-whitespace run. -/
def matchPrioLine (t : Str) : Option Str :=
  match t with
  | '-' :: c :: r =>
    if jsIsSpace c then
      let capt := (r.dropWhile jsIsSpace).takeWhile (fun c => ¬ jsIsSpace c)
      if capt = [] then none else some capt
    else none
  | _ => none

/-- Display name derived from a column id (utils.js line 66):
`columnId.split('-').map(w => w.charAt(0).toUpperCase() + w.slice(1)).flatten(' ')`. -/
def autoColName (columnId : Str) : Str :=
  joinSep (cl " ")
    ((splitOnChar '-' columnId).map (fun w =>
      match w with
      | [] => []
      | c :: rest => c.toUpper :: rest))

/-- Overwrite the name of the last parsed column (utils.js lines 70-73). -/
def setLastColName (cols : List Column) (nm : Str) : List Column :=
  match cols.getLast? with
  | none => cols
  | some last => cols.dropLast ++ [⟨last.id, nm⟩]

/-- One step of `parseSimpleYaml`'s line loop (utils.js lines 51-78). -/
def parseYamlLine (st : Config × Option YamlSection) (line : Str) :
    Config × Option YamlSection :=
  let cfg := st.1
  let sect := st.2
  let t := jsTrim line
  if t = [] ∨ t.head? = some '#' then st
  else
    match (if sect = none then matchNameLine t else none) with
    | some nm => ({ cfg with name := nm }, sect)
    | none =>
      if t = cl "columns:" then (cfg, some .columns)
      else if t = cl "priorities:" then (cfg, some .priorities)
      else
        match (if sect = some .columns then matchColIdLine t else none) with
        | some id => ({ cfg with columns := cfg.columns ++ [⟨id, autoColName id⟩] }, sect)
        | none =>
          match (if sect = some .columns then matchColNameLine t else none) with
          | some nm => ({ cfg with columns := setLastColName cfg.columns nm }, sect)
          | none =>
            match (if sect = some .priorities then matchPrioLine t else none) with
            | some p => ({ cfg with priorities := cfg.priorities ++ [p] }, sect)
            | none => st

/-- Embedding of `parseSimpleYaml` (utils.js lines 41-81).  Note that the
result never carries a `notifications` object: no branch of the parser reads
the notifications section. -/
def parseSimpleYaml (content : Str) : Config :=
  ((splitOnChar '\n' content).foldl parseYamlLine
    (⟨cl "My Project Board", [], [], none⟩, none)).1

/-- JavaScript `${bool}` interpolation. -/
def boolStr : Bool → Str
  | true => cl "true"
  | false => cl "false"

/-- Embedding of `configToYaml` (config.js lines 212-244), including the
comment columns of the emitted file. -/
def configToYaml (c : Config) : Str :=
  cl "# Flatban Configuration\nname: \"" ++ c.name ++ cl "\"\n\n" ++
  cl "columns:\n" ++
  (c.columns.map (fun col =>
    cl "  - id: " ++ col.id ++ cl "\n    name: \"" ++ col.name ++ cl "\"\n")).flatten ++
  cl "\n" ++
  cl "priorities:\n" ++
  (c.priorities.map (fun p => cl "  - " ++ p ++ cl "\n")).flatten ++
  cl "\n" ++
  cl "# Browser notification settings\nnotifications:\n" ++
  cl "  enabled: " ++ boolStr ((c.notifications.map Notifications.enabled).getD false) ++
  cl "              # Enable/disable browser notifications\n" ++
  cl "  all_changes: " ++ boolStr ((c.notifications.map Notifications.all_changes).getD false) ++
  cl "          # Notify on all task changes (moves, creates, deletes)\n" ++
  (let nc := (c.notifications.map Notifications.notify_columns).getD []
   if 0 < nc.length then
     cl "  notify_columns: [" ++ joinSep (cl ", ") nc ++
       cl "]     # List of column IDs to notify when tasks move into them\n"
   else
     cl "  notify_columns: []          # List of column IDs to notify when tasks move into them (e.g., [review, done])\n")

/-! ## Task record codec (init.js template, create.js substitution) -/

/-- The `template.md` contents written by `init` (init.js lines 65-83). -/
def templateContent : Str :=
  cl "---\nid: {id}\ntitle: \"{title}\"\npriority: {priority}\ntags: {tags}\nassigned: {assigned}\n---\n\n## Description\n\n\n\n## Notes\n\n\n\n## History\n- {datetime}: Task created\n"

/-- `tags.length === 0 ? '[]' : `[${tags.join(', ')}]`` (create.js line 58). -/
def tagsStrOf (tags : List Str) : Str :=
  if tags.length = 0 then cl "[]"
  else '[' :: (joinSep (cl ", ") tags ++ [']'])

/-- The template substitution performed by `create` (create.js lines 61-74):
six first-occurrence `String.replace` calls, then the optional description
and notes section fills. -/
def encodeTask (id title priority : Str) (tags : List Str)
    (assigned datetime description notes : Str) : Str :=
  let t1 := replaceFirst templateContent (cl "{id}") id
  let t2 := replaceFirst t1 (cl "{title}") title
  let t3 := replaceFirst t2 (cl "{priority}") priority
  let t4 := replaceFirst t3 (cl "{tags}") (tagsStrOf tags)
  let t5 := replaceFirst t4 (cl "{assigned}") assigned
  let t6 := replaceFirst t5 (cl "{datetime}") datetime
  let t7 :=
    if description ≠ [] then
      replaceFirst t6 (cl "## Description\n\n\n")
        (cl "## Description\n\n" ++ description ++ cl "\n")
    else t6
  if notes ≠ [] then
    replaceFirst t7 (cl "## Notes\n\n\n") (cl "## Notes\n\n" ++ notes ++ cl "\n")
  else t7

/-- Worker for `collapseRuns`: the flag records whether we are inside a run of
characters satisfying `p` (already replaced by one `rep`). -/
def collapseRunsAux (p : Char → Bool) (rep : Char) : Bool → Str → Str
  | _, [] => []
  | inRun, c :: rest =>
    if p c then
      if inRun then collapseRunsAux p rep true rest
      else rep :: collapseRunsAux p rep true rest
    else c :: collapseRunsAux p rep false rest

/-- Replace each maximal run of characters satisfying `p` by the single
character `rep` (a JavaScript global replace of `X+` by a one-char string). -/
def collapseRuns (p : Char → Bool) (rep : Char) (s : Str) : Str :=
  collapseRunsAux p rep false s

/-- Embedding of `slugify` (utils.js lines 204-211). -/
def slugify (text : Str) : Str :=
  let lowered := text.map Char.toLower
  let filtered := lowered.filter (fun c => isWordChar c ∨ jsIsSpace c ∨ c = '-')
  let dashed := collapseRuns jsIsSpace '-' filtered
  (collapseRuns (fun c => c = '-') '-' dashed).take 50

/-! ## Reconciliation engine (server.js `checkIfSyncNeeded` / `rebuildIndex`,
sync.js) -/

/-- JavaScript `x || default` on a frontmatter value. -/
def jsOrDefault (v : Option FMValue) (d : FMValue) : FMValue :=
  match v with
  | some x => if x.truthy then x else d
  | none => d

/-- A frontmatter value used as an object key (JavaScript coerces arrays by
joining with `,`). -/
def fmKeyStr : FMValue → Str
  | .str s => s
  | .list l => joinSep (cl ",") l

/-- The path `.flatban/{col}/{name}` relative to the board root. -/
def pathOf (colId name : Str) : Str :=
  cl ".flatban/" ++ colId ++ '/' :: name

/-- The cache entry built for one scanned file (sync.js lines 142-151,
server.js lines 333-343): frontmatter fields with their `||` defaults and the
stat timestamps. -/
def mkEntry (colId : Str) (f : TaskFile) (fm : List (Str × FMValue)) : TaskEntry :=
  ⟨pathOf colId f.filename,
   jsOrDefault (aLookup fm (cl "title")) (.str (cl "Untitled")),
   colId,
   jsOrDefault (aLookup fm (cl "priority")) (.str (cl "medium")),
   jsOrDefault (aLookup fm (cl "tags")) (.list []),
   jsOrDefault (aLookup fm (cl "assigned")) (.str []),
   f.mtime, f.mtime⟩

/-- Decode one task file during a scan: parse its frontmatter and require a
truthy `id`; `none` covers both the parse failure and the missing-id warning
paths, which are skipped without aborting the scan. -/
def decodeFile (colId : Str) (f : TaskFile) : Option (Str × TaskEntry) :=
  match parseFrontmatter f.content with
  | none => none
  | some (fm, _body) =>
    match aLookup fm (cl "id") with
    | some idv => if idv.truthy then some (fmKeyStr idv, mkEntry colId f fm) else none
    | none => none

/-- `index.columns[k]++` with JavaScript numeric semantics: an integer count
increments; a NaN or missing slot becomes NaN. -/
def jsIncr (cols : List (Str × JNum)) (k : Str) : List (Str × JNum) :=
  match aLookup cols k with
  | some (some n) => setKey cols k (some (n + 1))
  | _ => setKey cols k none

/-- `index.columns[k]--` with the same semantics. -/
def jsDecr (cols : List (Str × JNum)) (k : Str) : List (Str × JNum) :=
  match aLookup cols k with
  | some (some n) => setKey cols k (some (n - 1))
  | _ => setKey cols k none

/-- One file of the rebuild scan (server.js lines 322-349): a file that
decodes with a truthy id is inserted into `index.tasks` and its column's
count incremented; a file that does not is skipped. -/
def scanFile (colId : Str) (idx : Index) (f : TaskFile) : Index :=
  match decodeFile colId f with
  | none => idx
  | some (id, e) =>
    { idx with tasks := setKey idx.tasks id e,
               columns := jsIncr idx.columns colId }

/-- One column of the rebuild scan (server.js lines 311-321): skip a missing
directory, else scan its `.md` files in order. -/
def scanColumn (fs : FileSys) (idx : Index) (col : Column) : Index :=
  match dirFiles fs col.id with
  | none => idx
  | some d => (mdFiles d).foldl (scanFile col.id) idx

/-- Embedding of the full rebuild (server.js `rebuildIndex` lines 298-357;
the `sync` command, sync.js lines 84-173, performs the identical scan and
differs only in logging and in not storing the body): a fresh index stamped
`now`, zeroed counts for every configured column, then a scan of each
configured column directory in order, inserting an entry and incrementing the
column count for every `.md` file that decodes with a truthy id. -/
def rebuildIndex (cfg : Config) (fs : FileSys) (now : Nat) : Index :=
  cfg.columns.foldl (scanColumn fs)
    ⟨cl "1.0", cfg.name, some now, [],
     cfg.columns.foldl (fun m col => setKey m col.id (some 0)) []⟩

/-- Embedding of `checkIfSyncNeeded` (server.js lines 269-296). -/
def checkIfSyncNeeded (idx : Index) (cfg : Config) (fs : FileSys) : Bool :=
  match idx.last_sync with
  | none => true
  | some t =>
    cfg.columns.any (fun col =>
      match dirFiles fs col.id with
      | none => false
      | some d => (mdFiles d).any (fun f => t < f.mtime))

/-- NaN-propagating addition of two JavaScript numeric slots. -/
def addJ : JNum → JNum → JNum
  | some a, some b => some (a + b)
  | _, _ => none

/-- The sum of the per-column counts of an index, over the configured
columns (a missing slot contributes NaN, as `undefined` would in JS
arithmetic). -/
def sumColumnCounts (cfg : Config) (idx : Index) : JNum :=
  cfg.columns.foldl (fun acc col => addJ acc ((aLookup idx.columns col.id).getD none)) (some 0)

/-- The number of `.md` task files on disk across the configured column
directories. -/
def totalMdFiles (cfg : Config) (fs : FileSys) : Nat :=
  (cfg.columns.map (fun col =>
    match dirFiles fs col.id with
    | none => 0
    | some d => (mdFiles d).length)).sum

/-- The id/entry pairs successfully decoded from one column's directory. -/
def colDecoded (fs : FileSys) (col : Column) : List (Str × TaskEntry) :=
  match dirFiles fs col.id with
  | none => []
  | some d => (mdFiles d).filterMap (decodeFile col.id)

/-- The successfully decoded id/entry pairs of a scan over the given columns,
in scan order. -/
def decodedOf (fs : FileSys) (L : List Column) : List (Str × TaskEntry) :=
  (L.map (colDecoded fs)).flatten

/-- The successfully decoded (column-scan order) id/entry pairs of a full
rebuild. -/
def decodedPairs (cfg : Config) (fs : FileSys) : List (Str × TaskEntry) :=
  decodedOf fs cfg.columns

/-! ## Mutation operations (create.js, move.js, server.js `/api/delete`) -/

/-- Observable steps of one operation, in program order: task-file mutations,
index mutations, and the final index persistence (`saveIndex`). -/
inductive Event where
  | fsWrite
  | fsRename
  | fsAppend
  | fsUnlink
  | idxTasks
  | idxCount
  | idxPersist
deriving DecidableEq, Repr

/-- The state an operation touches: the column directories and the persisted
`index.json` (each CLI/API invocation loads the latter and, on the paths that
persist, saves it back). -/
structure BoardState where
  fs : FileSys
  savedIndex : Index
deriving DecidableEq, Repr

/-- Replace the file of the same name in a directory, else append it
(`fs.writeFileSync` / rename target semantics). -/
def putFile (d : List TaskFile) (f : TaskFile) : List TaskFile :=
  if d.any (fun g => g.filename = f.filename) then
    d.map (fun g => if g.filename = f.filename then f else g)
  else d ++ [f]

/-- Write a file into a column directory. -/
def addFile (fs : FileSys) (colId : Str) (f : TaskFile) : FileSys :=
  ⟨match aLookup fs.dirs colId with
    | some d => setKey fs.dirs colId (putFile d f)
    | none => fs.dirs ++ [(colId, [f])]⟩

/-- `path.basename`: the final `/`-separated component. -/
def jsBasename (p : Str) : Str :=
  ((splitOnChar '/' p).getLast?).getD p

/-- Look a file up by its board-relative path (`fs.existsSync` /
`fs.readFileSync` on a stored `task.file`). -/
def fsLookupPath (fs : FileSys) (p : Str) : Option TaskFile :=
  fs.dirs.findSome? (fun cd => cd.2.find? (fun f => pathOf cd.1 f.filename = p))

/-- Remove the file with the given board-relative path. -/
def fsRemovePath (fs : FileSys) (p : Str) : FileSys :=
  ⟨fs.dirs.map (fun cd => (cd.1, cd.2.filter (fun f => pathOf cd.1 f.filename ≠ p)))⟩

/-- Remove a key from an association list (JavaScript `delete obj[k]`). -/
def removeKey (l : List (Str × α)) (k : Str) : List (Str × α) :=
  match l with
  | [] => []
  | (k', v) :: rest => if k' = k then rest else (k', v) :: removeKey rest k

/-- Result of one embedded operation: the state after it, the events it
performed in order, and its outcome. -/
abbrev OpResult := BoardState × List Event × Except OpError Str

/-- Embedding of the `create` command (create.js lines 13-99).  `rands` and
`secs` feed the id generator, `dt` is the formatted creation datetime and
`now` the clock used for the file's stat timestamps and for `saveIndex`'s
`last_sync` stamp. -/
def createOp (cfg : Config) (st : BoardState) (title col priority : Str)
    (tags : List Str) (assigned description notes : Str)
    (rands : Nat → Fin 36 × Fin 36 × Fin 36) (secs : Nat) (dt : Str) (now : Nat) :
    OpResult :=
  if title = [] then (st, [], .error .usage)
  else
    let index := st.savedIndex
    if col ∉ cfg.columns.map Column.id then (st, [], .error .invalidColumn)
    else if priority ∉ cfg.priorities then (st, [], .error .invalidPriority)
    else
      match generateTaskId index.tasks rands secs with
      | none => (st, [], .error .idExhausted)
      | some taskId =>
        let filename := taskId ++ '-' :: slugify title ++ cl ".md"
        let content := encodeTask taskId title priority tags assigned dt description notes
        let fs' := addFile st.fs col ⟨filename, content, now⟩
        let entry : TaskEntry :=
          ⟨pathOf col filename, .str title, col, .str priority, .list tags,
           .str assigned, now, now⟩
        let index' : Index :=
          { index with
              tasks := setKey index.tasks taskId entry,
              columns := jsIncr index.columns col,
              last_sync := some now }
        (⟨fs', index'⟩, [.fsWrite, .idxTasks, .idxCount, .idxPersist], .ok taskId)

/-- Embedding of the `move` command (move.js lines 13-74; the server's
`/api/move` handler, server.js lines 91-174, performs the same steps).
`dtHist` is the formatted datetime of the appended history line. -/
def moveOp (cfg : Config) (st : BoardState) (taskIdArg targetColumn : Str)
    (dtHist : Str) (now : Nat) : OpResult :=
  if taskIdArg = [] ∨ targetColumn = [] then (st, [], .error .usage)
  else
    let index := st.savedIndex
    match findTaskByPartialId index.tasks taskIdArg with
    | .error e => (st, [], .error e)
    | .ok fullTaskId =>
      if targetColumn ∉ cfg.columns.map Column.id then
        (st, [], .error .invalidColumn)
      else
        match aLookup index.tasks fullTaskId with
        | none => (st, [], .error (.notFound fullTaskId))
        | some task =>
          let oldColumn := task.status
          if oldColumn = targetColumn then (st, [], .ok fullTaskId)
          else
            let oldPath := task.file
            let newFilename := jsBasename task.file
            match fsLookupPath st.fs oldPath with
            | none => (st, [], .error .fileMissing)
            | some f =>
              let fs1 := addFile (fsRemovePath st.fs oldPath) targetColumn
                ⟨newFilename, f.content, f.mtime⟩
              let colName :=
                match cfg.columns.find? (fun c => c.id = targetColumn) with
                | some c => if c.name = [] then cl "unknown" else c.name
                | none => cl "unknown"
              let histLine :=
                cl "- " ++ dtHist ++ cl ": " ++ cl "Moved to " ++ colName ++ cl "\n"
              let fs2 := addFile fs1 targetColumn ⟨newFilename, f.content ++ histLine, now⟩
              let task' : TaskEntry :=
                { task with
                    file := pathOf targetColumn newFilename,
                    status := targetColumn,
                    modified := now }
              let index' : Index :=
                { index with
                    tasks := setKey index.tasks fullTaskId task',
                    columns := jsIncr (jsDecr index.columns oldColumn) targetColumn,
                    last_sync := some now }
              (⟨fs2, index'⟩,
               [.fsRename, .fsAppend, .idxTasks, .idxCount, .idxCount, .idxPersist],
               .ok fullTaskId)

/-- Embedding of the `/api/delete` handler (server.js lines 177-231): resolve
the id, unlink the file if it still exists (tolerating its absence), delete
the cache entry, decrement the owning column's count, persist. -/
def deleteOp (st : BoardState) (taskIdArg : Str) (now : Nat) : OpResult :=
  let index := st.savedIndex
  match findTaskByPartialId index.tasks taskIdArg with
  | .error e => (st, [], .error e)
  | .ok fullTaskId =>
    match aLookup index.tasks fullTaskId with
    | none => (st, [], .error (.notFound fullTaskId))
    | some task =>
      let (fs', fsEvents) :=
        match fsLookupPath st.fs task.file with
        | some _ => (fsRemovePath st.fs task.file, [Event.fsUnlink])
        | none => (st.fs, [])
      let index' : Index :=
        { index with
            tasks := removeKey index.tasks fullTaskId,
            columns := jsDecr index.columns task.status,
            last_sync := some now }
      (⟨fs', index'⟩, fsEvents ++ [.idxTasks, .idxCount, .idxPersist], .ok fullTaskId)

/-- The board state `init` leaves behind (init.js lines 16-104): one empty
directory per configured column and an index with zero counts.  (The stock
`init` always writes the five default columns; the configuration is kept
abstract so the same relation covers edited boards.) -/
def initBoard (cfg : Config) (now : Nat) : BoardState :=
  ⟨⟨cfg.columns.map (fun col => (col.id, []))⟩,
   ⟨cl "1.0", cfg.name, some now,  [],
    cfg.columns.foldl (fun m col => setKey m col.id (some 0)) []⟩⟩

/-- A string argument free of newlines, template braces and JavaScript
replacement escapes — the well-formedness under which the template
substitution of `create` is a plain splice. -/
def NiceStr (s : Str) : Prop := ('\n' ∉ s) ∧ ('{' ∉ s) ∧ ('$' ∉ s)

/-- Board states reachable from a fresh board by sequences of `create`,
`move` and `delete` operations whose string arguments are single-line and
free of template/replacement metacharacters (see `NiceStr`), and whose
creations pass no description or notes.  Each step is an invocation of the
corresponding embedded operation, successful or not. -/
inductive Reach (cfg : Config) : BoardState → Prop where
  | init (now : Nat) : Reach cfg (initBoard cfg now)
  | create {st : BoardState} (title col priority : Str) (tags : List Str)
      (assigned : Str) (rands : Nat → Fin 36 × Fin 36 × Fin 36)
      (secs : Nat) (dt : Str) (now : Nat) :
      Reach cfg st → NiceStr title → (∀ t ∈ tags, NiceStr t) → NiceStr assigned →
      NiceStr dt → (∀ p ∈ cfg.priorities, NiceStr p) →
      Reach cfg (createOp cfg st title col priority tags assigned [] []
        rands secs dt now).1
  | move {st : BoardState} (taskIdArg targetColumn dtHist : Str) (now : Nat) :
      Reach cfg st → ('\n' ∉ dtHist) → (∀ c ∈ cfg.columns, '\n' ∉ c.name) →
      Reach cfg (moveOp cfg st taskIdArg targetColumn dtHist now).1
  | delete {st : BoardState} (taskIdArg : Str) (now : Nat) :
      Reach cfg st →
      Reach cfg (deleteOp st taskIdArg now).1

/-! ## General lemmas -/

theorem two_mem_one_lt_length {α : Type _} {l : List α} {a b : α}
    (ha : a ∈ l) (hb : b ∈ l) (hne : a ≠ b) : 1 < l.length := by
  match l with
  | [] => cases ha
  | [x] =>
    simp only [List.mem_singleton] at ha hb
    exact absurd (ha.trans hb.symm) hne
  | x :: y :: rest => simp [Nat.lt_add_of_pos_left]

/-! ## Claim C10: create against an index with no count entry for the column -/

/-- `JSON.stringify` of one count slot: NaN serializes as `null`. -/
def serializeCount : JNum → Str
  | none => cl "null"
  | some n => (toString n).data

/-- Claim C10: a `create` aimed at an index whose `columns` mapping lacks the
target column — exactly what `loadIndex` returns when `index.json` is missing
or unparsable — still succeeds, but the incremented count for that column is
NaN (serialized as `null`) rather than `1`. -/
theorem create_on_empty_index_nan_count
    (cfg : Config) (fs : FileSys) (title col priority : Str) (tags : List Str)
    (assigned description notes : Str) (rands : Nat → Fin 36 × Fin 36 × Fin 36)
    (secs : Nat) (dt : Str) (now : Nat)
    (htitle : title ≠ [])
    (hcol : col ∈ cfg.columns.map Column.id)
    (hprio : priority ∈ cfg.priorities) :
    ∃ id, (createOp cfg ⟨fs, emptyIndex⟩ title col priority tags assigned description
        notes rands secs dt now).2.2 = .ok id ∧
      aLookup (createOp cfg ⟨fs, emptyIndex⟩ title col priority tags assigned description
        notes rands secs dt now).1.savedIndex.columns col = some none ∧
      serializeCount none = cl "null" ∧
      serializeCount none ≠ cl "1" := by
  have hgen : generateTaskId ([] : List (Str × TaskEntry)) rands secs =
      some (taskIdCandidate (rands 0) secs) := rfl
  refine ⟨taskIdCandidate (rands 0) secs, ?_⟩
  simp only [createOp, htitle, if_neg, not_not_intro hcol, not_not_intro hprio,
    ite_false, emptyIndex]
  simp only [hgen]
  simp [jsIncr, aLookup, setKey, serializeCount, cl]

theorem create_on_empty_index_nan_count_witness :
    ∃ id, (createOp ⟨cl "B", [⟨cl "todo", cl "To Do"⟩], [cl "low"], none⟩
        ⟨⟨[(cl "todo", [])]⟩, emptyIndex⟩ (cl "T") (cl "todo") (cl "low") [] [] [] []
        (fun _ => (⟨0, by norm_num⟩, ⟨0, by norm_num⟩, ⟨0, by norm_num⟩)) 7 (cl "dt")
        3).2.2 = .ok id ∧
      aLookup (createOp ⟨cl "B", [⟨cl "todo", cl "To Do"⟩], [cl "low"], none⟩
        ⟨⟨[(cl "todo", [])]⟩, emptyIndex⟩ (cl "T") (cl "todo") (cl "low") [] [] [] []
        (fun _ => (⟨0, by norm_num⟩, ⟨0, by norm_num⟩, ⟨0, by norm_num⟩)) 7 (cl "dt")
        3).1.savedIndex.columns (cl "todo") = some none ∧
      serializeCount none = cl "null" ∧
      serializeCount none ≠ cl "1" :=
  create_on_empty_index_nan_count _ _ _ _ _ _ _ _ _ _ _ _ _
    (by decide) (by decide) (by decide)

/-! ## Claim C5: task ids are not fixed-width (code bug) -/

/-- The random stream drawing the digits `a`, `b`, `c` on every attempt. -/
def constRands : Nat → Fin 36 × Fin 36 × Fin 36 :=
  fun _ => (⟨10, by norm_num⟩, ⟨11, by norm_num⟩, ⟨12, by norm_num⟩)

/-- Claim C5 (refuted; code bug): `generateTaskId`'s own documentation says it
generates a 7-character id with a 4-character timestamp, but `padStart(4,'0')`
only enforces a minimum width.  At `secondsSince2000 = 0` the id is 7
characters, at a 2026 clock reading (`secondsSince2000 = 840000000`, whose
base-36 rendering has 6 digits) it is 9 characters, so the width is not a
constant and the time component is not 4 wide. -/
theorem generateTaskId_width_not_constant :
    generateTaskId [] constRands 0 = some (cl "abc0000") ∧
    (cl "abc0000").length = 7 ∧
    generateTaskId [] constRands 840000000 = some (cl "abcdw445c") ∧
    (cl "abcdw445c").length = 9 ∧
    (timestampComponent 840000000).length = 6 := by
  refine ⟨rfl, rfl, ?_, rfl, ?_⟩ <;> decide

/-! ## Claim C3: prefix lookup -/

/-- The task ids starting with the given prefix string. -/
def idMatches (tasks : List (Str × TaskEntry)) (pid : Str) : List Str :=
  (tasks.map Prod.fst).filter (fun id => pid.isPrefixOf id)

/-- Claim C3: for every index and prefix, `findTaskByPartialId` fails with the
not-found error when no stored id starts with the prefix, fails with the
ambiguity error when more than one does, and returns the unique match
otherwise; in particular a prefix equal to a full stored id that is also a
prefix of a second, different id is still ambiguous (no exact-match special
case). -/
theorem findTaskByPartialId_spec (tasks : List (Str × TaskEntry)) (pid : Str) :
    (idMatches tasks pid = [] →
      findTaskByPartialId tasks pid = .error (.notFound pid)) ∧
    (1 < (idMatches tasks pid).length →
      findTaskByPartialId tasks pid = .error (.ambiguous (idMatches tasks pid))) ∧
    (∀ m, idMatches tasks pid = [m] → findTaskByPartialId tasks pid = .ok m) ∧
    (∀ q, pid ∈ tasks.map Prod.fst → q ∈ tasks.map Prod.fst → q ≠ pid →
      pid.isPrefixOf q →
      findTaskByPartialId tasks pid = .error (.ambiguous (idMatches tasks pid)) ∧
      pid ∈ idMatches tasks pid ∧ q ∈ idMatches tasks pid) := by
  have hambig : 1 < (idMatches tasks pid).length →
      findTaskByPartialId tasks pid = .error (.ambiguous (idMatches tasks pid)) := by
    intro h
    have h0 : (idMatches tasks pid).length ≠ 0 := by omega
    simp only [findTaskByPartialId, idMatches] at *
    rw [if_neg h0, if_pos h]
  refine ⟨?_, hambig, ?_, ?_⟩
  · intro h
    simp only [findTaskByPartialId, idMatches] at *
    rw [h]
    simp
  · intro m h
    simp only [findTaskByPartialId, idMatches] at *
    rw [h]
    simp
  · intro q hp hq hne hpre
    have hpm : pid ∈ idMatches tasks pid :=
      List.mem_filter.mpr ⟨hp, List.isPrefixOf_iff_prefix.mpr (List.prefix_refl pid)⟩
    have hqm : q ∈ idMatches tasks pid := List.mem_filter.mpr ⟨hq, hpre⟩
    exact ⟨hambig (two_mem_one_lt_length hpm hqm (fun h => hne h.symm)), hpm, hqm⟩

/-- A two-task index with ids `abc1234` and `abc5678` (the spec's prefix
resolution example). -/
def exTasks : List (Str × TaskEntry) :=
  [(cl "abc1234", ⟨cl "f1.md", .str (cl "T"), cl "todo", .str (cl "low"), .list [],
      .str [], 0, 0⟩),
   (cl "abc5678", ⟨cl "f2.md", .str (cl "T"), cl "todo", .str (cl "low"), .list [],
      .str [], 0, 0⟩)]

/-- Witness instantiating claim C3 on the spec's own example: ids `abc1234`
and `abc5678`; prefix `abc` is ambiguous (and `abc1234` itself would be
ambiguous were it a prefix of another id), `abc1` resolves, `xyz` is not
found. -/
theorem findTaskByPartialId_spec_witness :
    findTaskByPartialId exTasks (cl "abc") = .error (.ambiguous [cl "abc1234", cl "abc5678"]) ∧
    findTaskByPartialId exTasks (cl "abc1") = .ok (cl "abc1234") ∧
    findTaskByPartialId exTasks (cl "xyz") = .error (.notFound (cl "xyz")) := by
  have h := findTaskByPartialId_spec exTasks (cl "abc")
  have h1 := findTaskByPartialId_spec exTasks (cl "abc1")
  have h2 := findTaskByPartialId_spec exTasks (cl "xyz")
  refine ⟨?_, ?_, ?_⟩
  · have hm : idMatches exTasks (cl "abc") = [cl "abc1234", cl "abc5678"] := by decide
    have hh := h.2.1 (by rw [hm]; norm_num)
    rw [hm] at hh
    exact hh
  · exact h1.2.2.1 (cl "abc1234") (by decide)
  · exact h2.1 (by decide)

/-! ## Claim C8: move to the current column is a pure no-op -/

/-- Claim C8: moving a task that already sits in the target column succeeds
and changes nothing at all: the returned state is the input state (so no
column count changes, the file is neither relocated nor rewritten, and the
persisted index — including its `last_sync` stamp — is untouched), and no
filesystem or index event is performed. -/
theorem move_noop_frame (cfg : Config) (st : BoardState)
    (taskIdArg targetColumn dtHist : Str) (now : Nat) (fullId : Str) (task : TaskEntry)
    (hargId : taskIdArg ≠ [])
    (hargCol : targetColumn ≠ [])
    (hresolve : findTaskByPartialId st.savedIndex.tasks taskIdArg = .ok fullId)
    (hvalid : targetColumn ∈ cfg.columns.map Column.id)
    (htask : aLookup st.savedIndex.tasks fullId = some task)
    (hstatus : task.status = targetColumn) :
    moveOp cfg st taskIdArg targetColumn dtHist now = (st, [], .ok fullId) := by
  simp only [moveOp, hargId, hargCol, hresolve, htask, hstatus,
    not_not_intro hvalid, or_self, ite_false, if_neg, if_pos]

/-- Witness for claim C8 at a concrete board: moving task `abc1234` to `todo`
while it is already in `todo`. -/
theorem move_noop_frame_witness :
    moveOp ⟨cl "B", [⟨cl "todo", cl "To Do"⟩], [cl "low"], none⟩
      ⟨⟨[(cl "todo", [])]⟩, ⟨cl "1.0", cl "B", some 4, exTasks, [(cl "todo", some 2)]⟩⟩
      (cl "abc1") (cl "todo") (cl "dt") 9 =
    (⟨⟨[(cl "todo", [])]⟩, ⟨cl "1.0", cl "B", some 4, exTasks, [(cl "todo", some 2)]⟩⟩,
      [], .ok (cl "abc1234")) :=
  move_noop_frame _ _ _ _ _ _ (cl "abc1234")
    ⟨cl "f1.md", .str (cl "T"), cl "todo", .str (cl "low"), .list [], .str [], 0, 0⟩
    (by decide) (by decide) rfl (by decide) rfl rfl

/-! ## Claim C7: intra-operation ordering of filesystem and index effects -/

/-- Task-file mutations. -/
def isFsMutation : Event → Bool
  | .fsWrite | .fsRename | .fsAppend | .fsUnlink => true
  | _ => false

/-- In-memory index mutations. -/
def isIdxMutation : Event → Bool
  | .idxTasks | .idxCount => true
  | _ => false

/-- A trace whose events come in three phases: filesystem mutations, then
index mutations, then (possibly) the single index persistence. -/
def PhasedTrace (tr : List Event) : Prop :=
  ∃ fsPart idxPart persistPart,
    tr = fsPart ++ idxPart ++ persistPart ∧
    (∀ e ∈ fsPart, isFsMutation e) ∧
    (∀ e ∈ idxPart, isIdxMutation e) ∧
    (persistPart = [] ∨ persistPart = [Event.idxPersist])

/-- Claim C7: in each of the three mutation operations, every filesystem
mutation strictly precedes every index mutation, every index mutation
precedes the index persistence, and an operation that fails performs no
effect at all (in particular no index mutation is attempted unless the
filesystem mutation completed). -/
theorem op_effect_ordering (cfg : Config) (st : BoardState) (title col priority : Str)
    (tags : List Str) (assigned description notes : Str)
    (rands : Nat → Fin 36 × Fin 36 × Fin 36) (secs : Nat) (dt : Str) (now : Nat)
    (taskIdArg targetColumn dtHist delArg : Str) :
    (PhasedTrace (createOp cfg st title col priority tags assigned description notes
        rands secs dt now).2.1 ∧
      (∀ e, (createOp cfg st title col priority tags assigned description notes
        rands secs dt now).2.2 = .error e →
        (createOp cfg st title col priority tags assigned description notes
          rands secs dt now).2.1 = [])) ∧
    (PhasedTrace (moveOp cfg st taskIdArg targetColumn dtHist now).2.1 ∧
      (∀ e, (moveOp cfg st taskIdArg targetColumn dtHist now).2.2 = .error e →
        (moveOp cfg st taskIdArg targetColumn dtHist now).2.1 = [])) ∧
    (PhasedTrace (deleteOp st delArg now).2.1 ∧
      (∀ e, (deleteOp st delArg now).2.2 = .error e →
        (deleteOp st delArg now).2.1 = [])) := by
  have hempty : PhasedTrace [] := ⟨[], [], [], by simp, by simp, by simp, Or.inl rfl⟩
  have hcreate : PhasedTrace [Event.fsWrite, .idxTasks, .idxCount, .idxPersist] :=
    ⟨[.fsWrite], [.idxTasks, .idxCount], [.idxPersist], by simp, by decide, by decide,
      Or.inr rfl⟩
  have hmove : PhasedTrace
      [Event.fsRename, .fsAppend, .idxTasks, .idxCount, .idxCount, .idxPersist] :=
    ⟨[.fsRename, .fsAppend], [.idxTasks, .idxCount, .idxCount], [.idxPersist], by simp,
      by decide, by decide, Or.inr rfl⟩
  have hdel1 : PhasedTrace [Event.fsUnlink, .idxTasks, .idxCount, .idxPersist] :=
    ⟨[.fsUnlink], [.idxTasks, .idxCount], [.idxPersist], by simp, by decide, by decide,
      Or.inr rfl⟩
  have hdel0 : PhasedTrace [Event.idxTasks, .idxCount, .idxPersist] :=
    ⟨[], [.idxTasks, .idxCount], [.idxPersist], by simp, by decide, by decide,
      Or.inr rfl⟩
  refine ⟨⟨?_, ?_⟩, ⟨?_, ?_⟩, ⟨?_, ?_⟩⟩
  · simp only [createOp]
    repeat' split
    all_goals first | exact hempty | exact hcreate
  · simp only [createOp]
    repeat' split
    all_goals (intro e he; first | rfl | exact Except.noConfusion he)
  · simp only [moveOp]
    repeat' split
    all_goals first | exact hempty | exact hmove
  · simp only [moveOp]
    repeat' split
    all_goals (intro e he; first | rfl | exact Except.noConfusion he)
  · simp only [deleteOp]
    repeat' split
    all_goals first | exact hempty | exact hdel1 | exact hdel0
  · simp only [deleteOp]
    repeat' split
    all_goals (intro e he; first | rfl | exact Except.noConfusion he)

/-! ## Claim C4: staleness detection -/

theorem foldl_preserve_last_sync {β : Type _} (g : Index → β → Index)
    (h : ∀ i b, (g i b).last_sync = i.last_sync) (l : List β) (i : Index) :
    (l.foldl g i).last_sync = i.last_sync := by
  induction l generalizing i with
  | nil => rfl
  | cons b rest ih => rw [List.foldl_cons, ih, h]

theorem scanFile_last_sync (colId : Str) (idx : Index) (f : TaskFile) :
    (scanFile colId idx f).last_sync = idx.last_sync := by
  unfold scanFile
  cases decodeFile colId f with
  | none => rfl
  | some p => rfl

theorem rebuildIndex_last_sync (cfg : Config) (fs : FileSys) (now : Nat) :
    (rebuildIndex cfg fs now).last_sync = some now := by
  unfold rebuildIndex
  rw [foldl_preserve_last_sync]
  intro i col
  unfold scanColumn
  cases hd : dirFiles fs col.id with
  | none => rfl
  | some d => exact foldl_preserve_last_sync _ (scanFile_last_sync col.id) _ i

theorem dir_scan_any_true (t : Nat) (colId : Str) (fs : FileSys) :
    ((match dirFiles fs colId with
      | none => false
      | some d => (mdFiles d).any (fun f => t < f.mtime)) = true) ↔
      ∃ d, dirFiles fs colId = some d ∧ ∃ f ∈ mdFiles d, t < f.mtime := by
  cases h : dirFiles fs colId <;> simp [h, List.any_eq_true]

/-- Claim C4: `checkIfSyncNeeded` returns true exactly when the index has
never been synced (`last_sync` null) or some `.md` task file in a configured,
existing column directory has a modification time strictly newer than the
last-sync timestamp; and immediately after `rebuildIndex` at time `now`, with
no file modified after `now`, it returns false. -/
theorem checkIfSyncNeeded_spec (idx : Index) (cfg : Config) (fs : FileSys) (now : Nat) :
    (checkIfSyncNeeded idx cfg fs = true ↔
      idx.last_sync = none ∨
        ∃ t, idx.last_sync = some t ∧
          ∃ col ∈ cfg.columns, ∃ d, dirFiles fs col.id = some d ∧
            ∃ f ∈ mdFiles d, t < f.mtime) ∧
    ((∀ col ∈ cfg.columns, ∀ d, dirFiles fs col.id = some d →
        ∀ f ∈ mdFiles d, f.mtime ≤ now) →
      checkIfSyncNeeded (rebuildIndex cfg fs now) cfg fs = false) := by
  constructor
  · cases h : idx.last_sync with
    | none => simp [checkIfSyncNeeded, h]
    | some t =>
      simp only [checkIfSyncNeeded, h, List.any_eq_true]
      constructor
      · rintro ⟨col, hcol, hmatch⟩
        exact Or.inr ⟨t, rfl, col, hcol, (dir_scan_any_true t col.id fs).mp hmatch⟩
      · rintro (hnone | ⟨t', ht', col, hcol, hdir⟩)
        · cases hnone
        · obtain rfl : t = t' := by injection ht'
          exact ⟨col, hcol, (dir_scan_any_true t col.id fs).mpr hdir⟩
  · intro hall
    have hls := rebuildIndex_last_sync cfg fs now
    simp only [checkIfSyncNeeded, hls, List.any_eq_false]
    intro col hcol
    cases hd : dirFiles fs col.id with
    | none => simp
    | some d =>
      simp only [hd]
      intro hcontra
      rw [List.any_eq_true] at hcontra
      obtain ⟨f, hf, hlt⟩ := hcontra
      exact absurd (by simpa using hlt) (Nat.not_lt.mpr (hall col hcol d hd f hf))

/-- Witness for claim C4 at a concrete board: an index last synced at time 4
with a file modified at time 7 is stale; after a rebuild at time 9 (with all
file mtimes at most 9) the new index is not stale. -/
theorem checkIfSyncNeeded_spec_witness :
    (checkIfSyncNeeded ⟨cl "1.0", cl "B", some 4, [], []⟩
        ⟨cl "B", [⟨cl "todo", cl "To Do"⟩], [cl "low"], none⟩
        ⟨[(cl "todo", [⟨cl "a.md", cl "x", 7⟩])]⟩ = true ↔
      (some 4 : Option Nat) = none ∨
        ∃ t, (some 4 : Option Nat) = some t ∧
          ∃ col ∈ [Column.mk (cl "todo") (cl "To Do")], ∃ d,
            dirFiles ⟨[(cl "todo", [⟨cl "a.md", cl "x", 7⟩])]⟩ col.id = some d ∧
            ∃ f ∈ mdFiles d, t < f.mtime) ∧
    ((∀ col ∈ [Column.mk (cl "todo") (cl "To Do")], ∀ d,
        dirFiles ⟨[(cl "todo", [⟨cl "a.md", cl "x", 7⟩])]⟩ col.id = some d →
        ∀ f ∈ mdFiles d, f.mtime ≤ 9) →
      checkIfSyncNeeded
        (rebuildIndex ⟨cl "B", [⟨cl "todo", cl "To Do"⟩], [cl "low"], none⟩
          ⟨[(cl "todo", [⟨cl "a.md", cl "x", 7⟩])]⟩ 9)
        ⟨cl "B", [⟨cl "todo", cl "To Do"⟩], [cl "low"], none⟩
        ⟨[(cl "todo", [⟨cl "a.md", cl "x", 7⟩])]⟩ = false) :=
  checkIfSyncNeeded_spec ⟨cl "1.0", cl "B", some 4, [], []⟩
    ⟨cl "B", [⟨cl "todo", cl "To Do"⟩], [cl "low"], none⟩
    ⟨[(cl "todo", [⟨cl "a.md", cl "x", 7⟩])]⟩ 9

/-! ## Association-list lemmas -/

theorem aLookup_setKey_self {α : Type _} (l : List (Str × α)) (k : Str) (v : α) :
    aLookup (setKey l k v) k = some v := by
  induction l with
  | nil => simp [setKey, aLookup]
  | cons p rest ih =>
    obtain ⟨k0, v0⟩ := p
    by_cases h : k0 = k
    · subst h
      simp [setKey, aLookup]
    · simp [setKey, aLookup, h, ih]

theorem aLookup_setKey_other {α : Type _} (l : List (Str × α)) (k k' : Str) (v : α)
    (h : k ≠ k') : aLookup (setKey l k v) k' = aLookup l k' := by
  induction l with
  | nil => simp [setKey, aLookup, h]
  | cons p rest ih =>
    obtain ⟨k0, v0⟩ := p
    by_cases h0 : k0 = k
    · subst h0
      simp [setKey, aLookup, h]
    · simp [setKey, aLookup, h0, ih]

theorem aLookup_jsIncr_self (l : List (Str × JNum)) (k : Str) (n : Int)
    (h : aLookup l k = some (some n)) :
    aLookup (jsIncr l k) k = some (some (n + 1)) := by
  unfold jsIncr
  rw [h]
  exact aLookup_setKey_self l k _

theorem aLookup_jsIncr_other (l : List (Str × JNum)) (k k' : Str) (h : k ≠ k') :
    aLookup (jsIncr l k) k' = aLookup l k' := by
  unfold jsIncr
  cases aLookup l k with
  | none => exact aLookup_setKey_other l k k' _ h
  | some j =>
    cases j with
    | none => exact aLookup_setKey_other l k k' _ h
    | some n => exact aLookup_setKey_other l k k' _ h

theorem setKey_cons_eq {α : Type _} (k : Str) (v0 v : α) (rest : List (Str × α)) :
    setKey ((k, v0) :: rest) k v = (k, v) :: rest := by
  unfold setKey
  rw [if_pos rfl]

theorem setKey_cons_ne {α : Type _} (k0 k : Str) (v0 v : α) (rest : List (Str × α))
    (h : k0 ≠ k) : setKey ((k0, v0) :: rest) k v = (k0, v0) :: setKey rest k v := by
  conv_lhs => unfold setKey
  rw [if_neg h]

theorem setKey_keys {α : Type _} (l : List (Str × α)) (k : Str) (v : α) :
    (setKey l k v).map Prod.fst =
      if k ∈ l.map Prod.fst then l.map Prod.fst else l.map Prod.fst ++ [k] := by
  induction l with
  | nil => simp [setKey]
  | cons p rest ih =>
    obtain ⟨k0, v0⟩ := p
    by_cases h : k0 = k
    · subst h
      rw [setKey_cons_eq, if_pos (by rw [List.map_cons]; exact List.mem_cons_self _ _)]
      rfl
    · rw [setKey_cons_ne _ _ _ _ _ h]
      simp only [List.map_cons]
      rw [ih]
      by_cases hm : k ∈ rest.map Prod.fst
      · rw [if_pos hm, if_pos (List.mem_cons_of_mem _ hm)]
      · rw [if_neg hm, if_neg ?_, List.cons_append]
        intro hc
        rcases List.mem_cons.mp hc with he | hmem
        · exact h he.symm
        · exact hm hmem

/-- Fold a list of key/value pairs into an association list by repeated
JavaScript-style assignment. -/
def insertAll {α : Type _} (acc : List (Str × α)) (l : List (Str × α)) :
    List (Str × α) :=
  l.foldl (fun m p => setKey m p.1 p.2) acc

/-- The value of the last pair carrying the given key, if any. -/
def lastVal {α : Type _} (l : List (Str × α)) (k : Str) : Option α :=
  match l with
  | [] => none
  | (k0, v0) :: rest =>
    match lastVal rest k with
    | some v => some v
    | none => if k0 = k then some v0 else none

theorem insertAll_append {α : Type _} (acc : List (Str × α)) (l1 l2 : List (Str × α)) :
    insertAll acc (l1 ++ l2) = insertAll (insertAll acc l1) l2 :=
  List.foldl_append _ _ _ _

theorem aLookup_insertAll {α : Type _} (acc : List (Str × α)) (l : List (Str × α))
    (k : Str) :
    aLookup (insertAll acc l) k =
      match lastVal l k with
      | some v => some v
      | none => aLookup acc k := by
  induction l generalizing acc with
  | nil => rfl
  | cons p rest ih =>
    obtain ⟨k0, v0⟩ := p
    show aLookup (insertAll (setKey acc k0 v0) rest) k = _
    rw [ih]
    cases hl : lastVal rest k with
    | some v => simp [lastVal, hl]
    | none =>
      by_cases h : k0 = k
      · subst h
        simp [lastVal, hl, aLookup_setKey_self]
      · simp [lastVal, hl, h, aLookup_setKey_other acc k0 k v0 h]

theorem insertAll_keys_mem {α : Type _} (acc l : List (Str × α)) (k : Str) :
    k ∈ (insertAll acc l).map Prod.fst ↔
      k ∈ acc.map Prod.fst ∨ k ∈ l.map Prod.fst := by
  induction l generalizing acc with
  | nil =>
    show k ∈ acc.map Prod.fst ↔ _
    simp only [List.map_nil, List.not_mem_nil, or_false]
  | cons p rest ih =>
    obtain ⟨k0, v0⟩ := p
    show k ∈ (insertAll (setKey acc k0 v0) rest).map Prod.fst ↔ _
    rw [ih, setKey_keys, List.map_cons]
    by_cases hm : k0 ∈ acc.map Prod.fst
    · rw [if_pos hm, List.mem_cons]
      constructor
      · rintro (h | h)
        · exact Or.inl h
        · exact Or.inr (Or.inr h)
      · rintro (h | h | h)
        · exact Or.inl h
        · exact Or.inl (h ▸ hm)
        · exact Or.inr h
    · rw [if_neg hm, List.mem_cons, List.mem_append, List.mem_singleton]
      constructor
      · rintro ((h | h) | h)
        · exact Or.inl h
        · exact Or.inr (Or.inl h)
        · exact Or.inr (Or.inr h)
      · rintro (h | h | h)
        · exact Or.inl (Or.inl h)
        · exact Or.inl (Or.inr h)
        · exact Or.inr h

theorem insertAll_keys_nodup {α : Type _} (acc l : List (Str × α))
    (h : (acc.map Prod.fst).Nodup) :
    ((insertAll acc l).map Prod.fst).Nodup := by
  induction l generalizing acc with
  | nil => exact h
  | cons p rest ih =>
    obtain ⟨k0, v0⟩ := p
    show ((insertAll (setKey acc k0 v0) rest).map Prod.fst).Nodup
    refine ih _ ?_
    rw [setKey_keys]
    by_cases hm : k0 ∈ acc.map Prod.fst
    · rw [if_pos hm]
      exact h
    · rw [if_neg hm]
      refine List.Nodup.append h (List.nodup_singleton k0) ?_
      intro x hx hx1
      rw [List.mem_singleton] at hx1
      exact hm (hx1 ▸ hx)

theorem insertAll_nil_length {α : Type _} (l : List (Str × α)) :
    (insertAll ([] : List (Str × α)) l).length = ((l.map Prod.fst).toFinset).card := by
  have hnodup : ((insertAll ([] : List (Str × α)) l).map Prod.fst).Nodup :=
    insertAll_keys_nodup [] l (by simp)
  have hset : ((insertAll ([] : List (Str × α)) l).map Prod.fst).toFinset =
      (l.map Prod.fst).toFinset := by
    ext k
    simp only [List.mem_toFinset]
    rw [insertAll_keys_mem]
    simp only [List.map_nil, List.not_mem_nil, false_or]
  calc (insertAll ([] : List (Str × α)) l).length
      = ((insertAll ([] : List (Str × α)) l).map Prod.fst).length := by
        rw [List.length_map]
    _ = ((insertAll ([] : List (Str × α)) l).map Prod.fst).toFinset.card :=
        (List.toFinset_card_of_nodup hnodup).symm
    _ = ((l.map Prod.fst).toFinset).card := by rw [hset]

theorem not_nodup_toFinset_card_lt {α : Type _} [DecidableEq α] (l : List α)
    (h : ¬ l.Nodup) : l.toFinset.card < l.length := by
  rw [List.card_toFinset]
  have hsub := List.dedup_sublist l
  have hne : l.dedup ≠ l := fun he => h (List.dedup_eq_self.mp he)
  have hle := hsub.length_le
  rcases Nat.lt_or_ge l.dedup.length l.length with hlt | hge
  · exact hlt
  · exact absurd (hsub.eq_of_length_le hge) hne

/-! ## Rebuild scan lemmas -/

theorem scanFile_none (colId : Str) (idx : Index) (f : TaskFile)
    (hf : decodeFile colId f = none) : scanFile colId idx f = idx := by
  unfold scanFile
  rw [hf]

theorem scanFile_some (colId : Str) (idx : Index) (f : TaskFile) (id : Str)
    (e : TaskEntry) (hf : decodeFile colId f = some (id, e)) :
    scanFile colId idx f =
      { idx with tasks := setKey idx.tasks id e,
                 columns := jsIncr idx.columns colId } := by
  unfold scanFile
  rw [hf]

theorem files_fold_tasks (colId : Str) (l : List TaskFile) (idx : Index) :
    (l.foldl (scanFile colId) idx).tasks =
      insertAll idx.tasks (l.filterMap (decodeFile colId)) := by
  induction l generalizing idx with
  | nil => rfl
  | cons f rest ih =>
    rw [List.foldl_cons, List.filterMap_cons]
    cases hf : decodeFile colId f with
    | none => rw [scanFile_none colId idx f hf]; exact ih idx
    | some p =>
      obtain ⟨id, e⟩ := p
      rw [scanFile_some colId idx f id e hf, ih]
      rfl

theorem scanColumn_tasks (fs : FileSys) (idx : Index) (col : Column) :
    (scanColumn fs idx col).tasks = insertAll idx.tasks (colDecoded fs col) := by
  unfold scanColumn colDecoded
  cases dirFiles fs col.id with
  | none => rfl
  | some d => exact files_fold_tasks _ _ _

theorem scan_cols_tasks (fs : FileSys) (L : List Column) (idx : Index) :
    (L.foldl (scanColumn fs) idx).tasks = insertAll idx.tasks (decodedOf fs L) := by
  induction L generalizing idx with
  | nil => rfl
  | cons col rest ih =>
    rw [List.foldl_cons, ih,
      show decodedOf fs (col :: rest) = colDecoded fs col ++ decodedOf fs rest by
        simp [decodedOf],
      insertAll_append, scanColumn_tasks]

theorem rebuildIndex_tasks (cfg : Config) (fs : FileSys) (now : Nat) :
    (rebuildIndex cfg fs now).tasks = insertAll [] (decodedPairs cfg fs) := by
  unfold rebuildIndex decodedPairs
  exact scan_cols_tasks fs cfg.columns _

theorem files_fold_count (colId : Str) (l : List TaskFile) (idx : Index) (n : Int)
    (h : aLookup idx.columns colId = some (some n)) :
    aLookup ((l.foldl (scanFile colId) idx).columns) colId =
      some (some (n + ((l.filterMap (decodeFile colId)).length : Int))) := by
  induction l generalizing idx n with
  | nil => simpa using h
  | cons f rest ih =>
    rw [List.foldl_cons, List.filterMap_cons]
    cases hf : decodeFile colId f with
    | none =>
      rw [scanFile_none colId idx f hf]
      exact ih idx n h
    | some p =>
      obtain ⟨id, e⟩ := p
      rw [scanFile_some colId idx f id e hf]
      have h' : aLookup (jsIncr idx.columns colId) colId = some (some (n + 1)) :=
        aLookup_jsIncr_self _ _ _ h
      rw [ih _ _ h']
      congr 2
      rw [List.length_cons]
      push_cast
      ring

theorem files_fold_count_other (colId k : Str) (l : List TaskFile) (idx : Index)
    (h : colId ≠ k) :
    aLookup ((l.foldl (scanFile colId) idx).columns) k = aLookup idx.columns k := by
  induction l generalizing idx with
  | nil => rfl
  | cons f rest ih =>
    rw [List.foldl_cons]
    cases hf : decodeFile colId f with
    | none => rw [scanFile_none colId idx f hf]; exact ih idx
    | some p =>
      obtain ⟨id, e⟩ := p
      rw [scanFile_some colId idx f id e hf, ih]
      exact aLookup_jsIncr_other _ _ _ h

theorem scanColumn_count_self (fs : FileSys) (idx : Index) (col : Column) (n : Int)
    (h : aLookup idx.columns col.id = some (some n)) :
    aLookup ((scanColumn fs idx col).columns) col.id =
      some (some (n + ((colDecoded fs col).length : Int))) := by
  unfold scanColumn colDecoded
  cases dirFiles fs col.id with
  | none => simpa using h
  | some d => exact files_fold_count _ _ _ _ h

theorem scanColumn_count_other (fs : FileSys) (idx : Index) (col : Column) (k : Str)
    (h : col.id ≠ k) :
    aLookup ((scanColumn fs idx col).columns) k = aLookup idx.columns k := by
  unfold scanColumn
  cases dirFiles fs col.id with
  | none => rfl
  | some d => exact files_fold_count_other _ _ _ _ h

theorem scan_cols_preserve (fs : FileSys) (L : List Column) (k : Str) (idx : Index)
    (h : ∀ y ∈ L, y.id ≠ k) :
    aLookup ((L.foldl (scanColumn fs) idx).columns) k = aLookup idx.columns k := by
  induction L generalizing idx with
  | nil => rfl
  | cons x rest ih =>
    rw [List.foldl_cons, ih _ (fun y hy => h y (List.mem_cons_of_mem x hy))]
    exact scanColumn_count_other fs idx x k (h x (List.mem_cons_self x rest))

theorem scan_cols_count (fs : FileSys) (L : List Column) (idx : Index) (c : Column)
    (n : Int) (hmem : c ∈ L) (hnodup : (L.map Column.id).Nodup)
    (h : aLookup idx.columns c.id = some (some n)) :
    aLookup ((L.foldl (scanColumn fs) idx).columns) c.id =
      some (some (n + ((colDecoded fs c).length : Int))) := by
  induction L generalizing idx with
  | nil => cases hmem
  | cons x rest ih =>
    rw [List.foldl_cons]
    rw [List.map_cons, List.nodup_cons] at hnodup
    rcases List.mem_cons.mp hmem with rfl | hc
    · have hrest : ∀ y ∈ rest, y.id ≠ c.id := by
        intro y hy he
        exact hnodup.1 (he ▸ List.mem_map_of_mem Column.id hy)
      rw [scan_cols_preserve fs rest c.id _ hrest]
      exact scanColumn_count_self fs idx c n h
    · have hxne : x.id ≠ c.id := by
        intro he
        exact hnodup.1 (he ▸ List.mem_map_of_mem Column.id hc)
      have h1 : aLookup ((scanColumn fs idx x).columns) c.id = some (some n) := by
        rw [scanColumn_count_other fs idx x c.id hxne]
        exact h
      exact ih _ hc hnodup.2 h1

theorem counts_init (L : List Column) (m0 : List (Str × JNum)) (k : Str)
    (h : k ∈ L.map Column.id ∨ aLookup m0 k = some (some 0)) :
    aLookup (L.foldl (fun m col => setKey m col.id (some 0)) m0) k =
      some (some 0) := by
  induction L generalizing m0 with
  | nil =>
    rcases h with h | h
    · simp at h
    · exact h
  | cons x rest ih =>
    rw [List.foldl_cons]
    apply ih
    by_cases hx : x.id = k
    · right
      rw [hx, aLookup_setKey_self]
    · rcases h with h | h
      · rw [List.map_cons, List.mem_cons] at h
        rcases h with h | h
        · exact absurd h.symm hx
        · exact Or.inl h
      · right
        rw [aLookup_setKey_other m0 x.id k _ hx]
        exact h

theorem sum_fold_eq (L : List Column) (idx : Index) (f : Column → Int)
    (h : ∀ c ∈ L, aLookup idx.columns c.id = some (some (f c))) (s : Int) :
    L.foldl (fun acc col => addJ acc ((aLookup idx.columns col.id).getD none))
        (some s) =
      some (s + (L.map f).sum) := by
  induction L generalizing s with
  | nil => simp
  | cons c rest ih =>
    rw [List.foldl_cons, h c (List.mem_cons_self c rest)]
    show rest.foldl _ (addJ (some s) (some (f c))) = _
    rw [show addJ (some s) (some (f c)) = some (s + f c) from rfl]
    rw [ih (fun c hc => h c (List.mem_cons_of_mem _ hc)) (s + f c)]
    rw [List.map_cons, List.sum_cons, add_assoc]

theorem rebuild_sum (cfg : Config) (fs : FileSys) (now : Nat)
    (hnodup : (cfg.columns.map Column.id).Nodup) :
    sumColumnCounts cfg (rebuildIndex cfg fs now) =
      some ((decodedPairs cfg fs).length : Int) := by
  unfold sumColumnCounts
  rw [sum_fold_eq cfg.columns _ (fun c => ((colDecoded fs c).length : Int)) ?_ 0]
  · rw [zero_add]
    congr 1
    unfold decodedPairs decodedOf
    rw [List.length_flatten, List.map_map]
    rw [Nat.cast_list_sum, List.map_map]
    rfl
  · intro c hc
    have h0 : aLookup
        (cfg.columns.foldl (fun m col => setKey m col.id (some 0))
          ([] : List (Str × JNum))) c.id = some (some 0) :=
      counts_init _ [] c.id (Or.inl (List.mem_map_of_mem Column.id hc))
    have hcount := scan_cols_count fs cfg.columns
      ⟨cl "1.0", cfg.name, some now, [],
        cfg.columns.foldl (fun m col => setKey m col.id (some 0)) []⟩
      c 0 hc hnodup h0
    rw [zero_add] at hcount
    exact hcount

/-! ## Claim C9: duplicate ids during a full rebuild -/

/-- Claim C9: when the rebuild scan decodes two task files carrying the same
identifier (a duplicate in the scanned id list), every successfully decoded
file still increments its column's count — the counts sum to the total number
of decoded files — while the identifier→metadata mapping keeps only the
last-scanned file's entry for each id, so the sum of the per-column counts
strictly exceeds the number of entries in `tasks`. -/
theorem rebuild_duplicate_id_overcount (cfg : Config) (fs : FileSys) (now : Nat)
    (hnodup : (cfg.columns.map Column.id).Nodup)
    (hdup : ¬ ((decodedPairs cfg fs).map Prod.fst).Nodup) :
    (∀ id, aLookup (rebuildIndex cfg fs now).tasks id =
      lastVal (decodedPairs cfg fs) id) ∧
    sumColumnCounts cfg (rebuildIndex cfg fs now) =
      some ((decodedPairs cfg fs).length : Int) ∧
    (rebuildIndex cfg fs now).tasks.length < (decodedPairs cfg fs).length := by
  refine ⟨?_, rebuild_sum cfg fs now hnodup, ?_⟩
  · intro id
    rw [rebuildIndex_tasks, aLookup_insertAll]
    cases lastVal (decodedPairs cfg fs) id with
    | some v => rfl
    | none => rfl
  · rw [rebuildIndex_tasks, insertAll_nil_length]
    calc ((decodedPairs cfg fs).map Prod.fst).toFinset.card
        < ((decodedPairs cfg fs).map Prod.fst).length :=
          not_nodup_toFinset_card_lt _ hdup
      _ = (decodedPairs cfg fs).length := List.length_map _ _

/-- A two-column board whose directories each hold a file claiming the id
`abc1234`. -/
def c9fs : FileSys :=
  ⟨[(cl "todo", [⟨cl "a.md", cl "---\nid: abc1234\ntitle: \"A\"\n---\n\n## D\n", 1⟩]),
    (cl "done", [⟨cl "b.md", cl "---\nid: abc1234\ntitle: \"B\"\n---\n\n## D\n", 2⟩])]⟩

/-- The configuration of the `c9fs` board. -/
def c9cfg : Config :=
  ⟨cl "B", [⟨cl "todo", cl "To Do"⟩, ⟨cl "done", cl "Done"⟩], [cl "low"], none⟩

/-- Witness for claim C9: on a board whose `todo` and `done` directories both
hold a file with id `abc1234`, the rebuilt counts sum to 2 while the tasks
mapping has 1 entry. -/
theorem rebuild_duplicate_id_overcount_witness :
    sumColumnCounts c9cfg (rebuildIndex c9cfg c9fs 5) =
      some ((decodedPairs c9cfg c9fs).length : Int) ∧
    (rebuildIndex c9cfg c9fs 5).tasks.length < (decodedPairs c9cfg c9fs).length :=
  ⟨(rebuild_duplicate_id_overcount c9cfg c9fs 5 (by decide) (by decide)).2.1,
   (rebuild_duplicate_id_overcount c9cfg c9fs 5 (by decide) (by decide)).2.2⟩

/-! ## String-primitive lemmas -/

theorem trimEnd_of_last (l : Str) (h : ∀ c, l.getLast? = some c → ¬ jsIsSpace c) :
    trimEnd l = l := by
  unfold trimEnd
  cases hr : l.reverse with
  | nil =>
    have : l = [] := by simpa using congrArg List.reverse hr
    simp [this]
  | cons d rr =>
    have hd : l.getLast? = some d := by
      rw [← List.head?_reverse, hr]
      rfl
    rw [List.dropWhile_cons_of_neg (h d hd), ← hr, List.reverse_reverse]

theorem jsTrim_eq_self (l : Str) (h1 : ∀ c, l.head? = some c → ¬ jsIsSpace c)
    (h2 : ∀ c, l.getLast? = some c → ¬ jsIsSpace c) : jsTrim l = l := by
  unfold jsTrim
  cases l with
  | nil => rfl
  | cons c r =>
    rw [List.dropWhile_cons_of_neg (h1 c rfl)]
    exact trimEnd_of_last _ h2

theorem takeWhile_all (p : Char → Bool) (l : Str) (h : ∀ x ∈ l, p x) :
    l.takeWhile p = l := by
  induction l with
  | nil => rfl
  | cons c r ih =>
    rw [List.takeWhile_cons_of_pos (h c (List.mem_cons_self c r))]
    rw [ih (fun x hx => h x (List.mem_cons_of_mem c hx))]

theorem takeWhile_append_neg (p : Char → Bool) (l1 : Str) (c : Char) (l2 : Str)
    (h1 : ∀ x ∈ l1, p x) (hc : ¬ p c) : (l1 ++ c :: l2).takeWhile p = l1 := by
  induction l1 with
  | nil =>
    show (c :: l2).takeWhile p = []
    rw [List.takeWhile_cons_of_neg hc]
  | cons d r ih =>
    rw [List.cons_append, List.takeWhile_cons_of_pos (h1 d (List.mem_cons_self d r))]
    rw [ih (fun x hx => h1 x (List.mem_cons_of_mem d hx))]

theorem dropWhile_append_neg (p : Char → Bool) (l1 : Str) (c : Char) (l2 : Str)
    (h1 : ∀ x ∈ l1, p x) (hc : ¬ p c) : (l1 ++ c :: l2).dropWhile p = c :: l2 := by
  induction l1 with
  | nil =>
    show (c :: l2).dropWhile p = c :: l2
    rw [List.dropWhile_cons_of_neg hc]
  | cons d r ih =>
    rw [List.cons_append, List.dropWhile_cons_of_pos (h1 d (List.mem_cons_self d r))]
    exact ih (fun x hx => h1 x (List.mem_cons_of_mem d hx))

theorem isPrefixOf_append_self (l r : Str) : l.isPrefixOf (l ++ r) :=
  List.isPrefixOf_iff_prefix.mpr (List.prefix_append l r)

theorem getLast?_append_right (l1 l2 : Str) (h : l2 ≠ []) :
    (l1 ++ l2).getLast? = l2.getLast? :=
  List.getLast?_append_of_ne_nil l1 h

theorem no_nl_getLast (l : Str) (hne : l ≠ []) (h : ∀ x ∈ l, ¬ jsIsSpace x) :
    ∀ c, l.getLast? = some c → ¬ jsIsSpace c :=
  fun c hc => h c (List.mem_of_mem_getLast? hc)

theorem mem_joinSep_of_mem {sep : Str} {ls : List Str} {ch : Char}
    (hsep : ch ∉ sep) (h : ∀ x ∈ ls, ch ∉ x) : ch ∉ joinSep sep ls := by
  induction ls with
  | nil => simp [joinSep]
  | cons x rest ih =>
    cases rest with
    | nil => simpa [joinSep] using h x (List.mem_cons_self x [])
    | cons y ys =>
      intro hmem
      rw [show joinSep sep (x :: y :: ys) = x ++ sep ++ joinSep sep (y :: ys) from rfl]
        at hmem
      rcases List.mem_append.mp hmem with hm | hm
      · rcases List.mem_append.mp hm with hm2 | hm2
        · exact h x (List.mem_cons_self x _) hm2
        · exact hsep hm2
      · exact ih (fun z hz => h z (List.mem_cons_of_mem x hz)) hm

/-! ## Claim C6: config load/save round-trip -/

/-- Concatenate lines, each terminated by a newline. -/
def linesOf (ls : List Str) : Str :=
  (ls.map (fun l => l ++ ['\n'])).flatten

theorem linesOf_cons (l : Str) (ls : List Str) :
    linesOf (l :: ls) = l ++ '\n' :: linesOf ls := by
  simp [linesOf]

theorem linesOf_append (a b : List Str) :
    linesOf (a ++ b) = linesOf a ++ linesOf b := by
  simp [linesOf]

theorem linesOf_flatten (L : List (List Str)) :
    linesOf L.flatten = (L.map linesOf).flatten := by
  induction L with
  | nil => rfl
  | cons x rest ih => simp [linesOf_append, ih]

theorem splitOnChar_ne_nil (sep : Char) (s : Str) : splitOnChar sep s ≠ [] := by
  cases s with
  | nil => simp [splitOnChar]
  | cons c rest =>
    unfold splitOnChar
    by_cases h : c = sep
    · simp [h]
    · simp only [if_neg h]
      cases splitOnChar sep rest <;> simp

theorem splitOnChar_cons_line (x rest : Str) (h : '\n' ∉ x) :
    splitOnChar '\n' (x ++ '\n' :: rest) = x :: splitOnChar '\n' rest := by
  induction x with
  | nil => simp [splitOnChar]
  | cons c r ih =>
    have hc : c ≠ '\n' := fun he => h (he ▸ List.mem_cons_self c r)
    rw [List.cons_append]
    conv_lhs => rw [splitOnChar]
    rw [if_neg hc, ih (fun hm => h (List.mem_cons_of_mem c hm))]

theorem splitOnChar_linesOf (ls : List Str) (h : ∀ l ∈ ls, '\n' ∉ l) :
    splitOnChar '\n' (linesOf ls) = ls ++ [[]] := by
  induction ls with
  | nil => rfl
  | cons l rest ih =>
    rw [linesOf_cons, splitOnChar_cons_line l _ (h l (List.mem_cons_self l rest)),
      ih (fun x hx => h x (List.mem_cons_of_mem l hx))]
    rfl

/-- The `notify_columns` line written by `configToYaml`. -/
def notifyLine (nc : List Str) : Str :=
  if 0 < nc.length then
    cl "  notify_columns: [" ++ joinSep (cl ", ") nc ++
      cl "]     # List of column IDs to notify when tasks move into them"
  else
    cl "  notify_columns: []          # List of column IDs to notify when tasks move into them (e.g., [review, done])"

/-- The lines of the file `configToYaml` emits (without their terminating
newlines). -/
def allLines (c : Config) : List Str :=
  [cl "# Flatban Configuration", cl "name: \"" ++ c.name ++ cl "\"", [],
   cl "columns:"] ++
  (c.columns.map (fun col =>
    [cl "  - id: " ++ col.id, cl "    name: \"" ++ col.name ++ cl "\""])).flatten ++
  [[], cl "priorities:"] ++
  c.priorities.map (fun p => cl "  - " ++ p) ++
  [[], cl "# Browser notification settings", cl "notifications:",
   cl "  enabled: " ++ boolStr ((c.notifications.map Notifications.enabled).getD false) ++
     cl "              # Enable/disable browser notifications",
   cl "  all_changes: " ++
     boolStr ((c.notifications.map Notifications.all_changes).getD false) ++
     cl "          # Notify on all task changes (moves, creates, deletes)",
   notifyLine ((c.notifications.map Notifications.notify_columns).getD [])]

theorem configToYaml_linesOf (c : Config) : configToYaml c = linesOf (allLines c) := by
  unfold configToYaml allLines notifyLine
  rw [linesOf_append, linesOf_append, linesOf_append, linesOf_append]
  rw [linesOf_flatten, List.map_map]
  have hcols : (c.columns.map (linesOf ∘ fun col =>
      [cl "  - id: " ++ col.id, cl "    name: \"" ++ col.name ++ cl "\""])) =
      c.columns.map (fun col =>
        cl "  - id: " ++ col.id ++ cl "\n    name: \"" ++ col.name ++ cl "\"\n") := by
    apply List.map_congr_left
    intro col _
    show linesOf [cl "  - id: " ++ col.id, cl "    name: \"" ++ col.name ++ cl "\""] = _
    rw [linesOf_cons, linesOf_cons]
    simp only [linesOf, List.map_nil, List.flatten_nil, List.append_nil,
      List.append_assoc]
    rfl
  rw [hcols]
  have hprios : linesOf (c.priorities.map (fun p => cl "  - " ++ p)) =
      (c.priorities.map (fun p => cl "  - " ++ p ++ cl "\n")).flatten := by
    unfold linesOf
    rw [List.map_map]
    rfl
  rw [hprios]
  cases hn : c.notifications with
  | none =>
    simp only [hn, Option.map_none', Option.getD_none]
    have h0 : ¬ (0 : Nat) < ([] : List Str).length := by simp
    rw [if_neg h0, if_neg h0]
    simp only [linesOf_cons, linesOf, List.map_cons, List.map_nil, List.flatten_cons,
      List.flatten_nil, List.append_nil, List.cons_append, List.nil_append,
      List.append_assoc]
    rfl
  | some notif =>
    simp only [hn, Option.map_some', Option.getD_some]
    by_cases hnc : 0 < notif.notify_columns.length
    · rw [if_pos hnc, if_pos hnc]
      simp only [linesOf_cons, linesOf, List.map_cons, List.map_nil, List.flatten_cons,
        List.flatten_nil, List.append_nil, List.cons_append, List.nil_append,
        List.append_assoc]
      rfl
    · rw [if_neg hnc, if_neg hnc]
      simp only [linesOf_cons, linesOf, List.map_cons, List.map_nil, List.flatten_cons,
        List.flatten_nil, List.append_nil, List.cons_append, List.nil_append,
        List.append_assoc]
      rfl

theorem not_mem_append {c : Char} {a b : Str} (ha : c ∉ a) (hb : c ∉ b) : c ∉ a ++ b :=
  fun h => (List.mem_append.mp h).elim (fun h2 => ha h2) (fun h2 => hb h2)

theorem nonws_head_of (t : Str) (c : Char) (hc : t.head? = some c) (h : ¬ jsIsSpace c) :
    ∀ d, t.head? = some d → ¬ jsIsSpace d := by
  intro d hd
  rw [hc] at hd
  exact Option.some.inj hd ▸ h

theorem nonws_last_of_suffix (l1 l2 : Str) (c : Char) (hne : l2 ≠ [])
    (hc : l2.getLast? = some c) (h : ¬ jsIsSpace c) :
    ∀ d, (l1 ++ l2).getLast? = some d → ¬ jsIsSpace d := by
  intro d hd
  rw [getLast?_append_right l1 l2 hne, hc] at hd
  exact Option.some.inj hd ▸ h

theorem nonws_last_append (l1 l2 : Str) (hne : l2 ≠ []) (h : ∀ x ∈ l2, ¬ jsIsSpace x) :
    ∀ d, (l1 ++ l2).getLast? = some d → ¬ jsIsSpace d := by
  intro d hd
  rw [getLast?_append_right l1 l2 hne] at hd
  exact no_nl_getLast l2 hne h d hd

theorem jsTrim_ws_append (w t : Str) (hw : ∀ x ∈ w, jsIsSpace x)
    (h1 : ∀ c, t.head? = some c → ¬ jsIsSpace c)
    (h2 : ∀ c, t.getLast? = some c → ¬ jsIsSpace c) :
    jsTrim (w ++ t) = t := by
  have hdw : (w ++ t).dropWhile jsIsSpace = t := by
    cases t with
    | nil =>
      rw [List.append_nil]
      exact List.dropWhile_eq_nil_iff.mpr hw
    | cons c r => exact dropWhile_append_neg _ w c r hw (h1 c rfl)
  unfold jsTrim
  rw [hdw]
  exact trimEnd_of_last t h2

theorem matchNameLine_quoted (nm : Str) (hq : '"' ∉ nm) (hne : nm ≠ []) :
    matchNameLine (cl "name: \"" ++ nm ++ cl "\"") = some nm := by
  have hcap : (nm ++ cl "\"").takeWhile (fun c => c ≠ '"') = nm :=
    takeWhile_append_neg _ nm '"' [] (fun x hx => decide_eq_true (fun he => hq (he ▸ hx)))
      (by decide)
  unfold matchNameLine
  split
  case isFalse h =>
    exact absurd (isPrefixOf_append_self (cl "name:") (' ' :: '"' :: (nm ++ cl "\""))) h
  case isTrue h =>
    have hr : ((cl "name: \"" ++ nm ++ cl "\"").drop 5).dropWhile jsIsSpace =
        '"' :: (nm ++ cl "\"") := by
      show (' ' :: '"' :: (nm ++ cl "\"")).dropWhile jsIsSpace = _
      rw [List.dropWhile_cons_of_pos (by decide), List.dropWhile_cons_of_neg (by decide)]
    rw [hr]
    simp only [hcap]
    rw [if_neg hne]

theorem matchColIdLine_dash (id : Str) (hne : id ≠ []) (hw : ∀ x ∈ id, ¬ jsIsSpace x) :
    matchColIdLine (cl "- id: " ++ id) = some id := by
  cases id with
  | nil => exact absurd rfl hne
  | cons x xs =>
    have hx : ¬ jsIsSpace x := hw x (List.mem_cons_self x xs)
    have hd : (x :: xs).dropWhile jsIsSpace = x :: xs := List.dropWhile_cons_of_neg hx
    have hc : (x :: xs).takeWhile (fun c => ¬ jsIsSpace c) = x :: xs :=
      takeWhile_all _ _ (fun y hy => decide_eq_true (hw y hy))
    show (if ((x :: xs).dropWhile jsIsSpace).takeWhile (fun c => ¬ jsIsSpace c) = []
          then none
          else some (((x :: xs).dropWhile jsIsSpace).takeWhile (fun c => ¬ jsIsSpace c)))
        = some (x :: xs)
    rw [hd, hc]
    simp

theorem matchPrioLine_dash (p : Str) (hne : p ≠ []) (hw : ∀ x ∈ p, ¬ jsIsSpace x) :
    matchPrioLine (cl "- " ++ p) = some p := by
  cases p with
  | nil => exact absurd rfl hne
  | cons x xs =>
    have hx : ¬ jsIsSpace x := hw x (List.mem_cons_self x xs)
    have hd : (x :: xs).dropWhile jsIsSpace = x :: xs := List.dropWhile_cons_of_neg hx
    have hc : (x :: xs).takeWhile (fun c => ¬ jsIsSpace c) = x :: xs :=
      takeWhile_all _ _ (fun y hy => decide_eq_true (hw y hy))
    show (if ((x :: xs).dropWhile jsIsSpace).takeWhile (fun c => ¬ jsIsSpace c) = []
          then none
          else some (((x :: xs).dropWhile jsIsSpace).takeWhile (fun c => ¬ jsIsSpace c)))
        = some (x :: xs)
    rw [hd, hc]
    simp

theorem matchColIdLine_none (t : Str) (h : t.head? ≠ some '-') : matchColIdLine t = none := by
  unfold matchColIdLine
  split <;> first | rfl | exact absurd rfl h

theorem matchPrioLine_none (t : Str) (h : t.head? ≠ some '-') : matchPrioLine t = none := by
  unfold matchPrioLine
  split <;> first | rfl | exact absurd rfl h

theorem matchColNameLine_none (t : Str) (h : ∀ c, t.head? = some c → ¬ jsIsSpace c) :
    matchColNameLine t = none := by
  unfold matchColNameLine
  split
  · next c rest => rw [if_neg (h c rfl)]
  · rfl

theorem parseYamlLine_nil (st : Config × Option YamlSection) : parseYamlLine st [] = st := rfl

theorem parseYamlLine_hash1 (cfg : Config) :
    parseYamlLine (cfg, none) (cl "# Flatban Configuration") = (cfg, none) := rfl

theorem parseYamlLine_cols_hdr (cfg : Config) :
    parseYamlLine (cfg, none) (cl "columns:") = (cfg, some YamlSection.columns) := rfl

theorem parseYamlLine_prios_hdr (cfg : Config) :
    parseYamlLine (cfg, some YamlSection.columns) (cl "priorities:") =
      (cfg, some YamlSection.priorities) := rfl

theorem parseYamlLine_hash2 (cfg : Config) :
    parseYamlLine (cfg, some YamlSection.priorities) (cl "# Browser notification settings") =
      (cfg, some YamlSection.priorities) := rfl

theorem parseYamlLine_notif_hdr (cfg : Config) :
    parseYamlLine (cfg, some YamlSection.priorities) (cl "notifications:") =
      (cfg, some YamlSection.priorities) := rfl

theorem parseYamlLine_name (cfg : Config) (nm : Str) (hq : '"' ∉ nm) (hne : nm ≠ []) :
    parseYamlLine (cfg, none) (cl "name: \"" ++ nm ++ cl "\"") =
      ({ cfg with name := nm }, none) := by
  have ht : jsTrim (cl "name: \"" ++ nm ++ cl "\"") = cl "name: \"" ++ nm ++ cl "\"" :=
    jsTrim_eq_self _ (nonws_head_of _ 'n' rfl (by decide))
      (nonws_last_of_suffix (cl "name: \"" ++ nm) (cl "\"") '"' (by decide) rfl (by decide))
  have hm : matchNameLine (cl "name: \"" ++ nm ++ cl "\"") = some nm :=
    matchNameLine_quoted nm hq hne
  simp only [parseYamlLine, ht, hm]
  rfl

theorem parseYamlLine_colid (cfg : Config) (id : Str) (hne : id ≠ [])
    (hw : ∀ x ∈ id, ¬ jsIsSpace x) :
    parseYamlLine (cfg, some YamlSection.columns) (cl "  - id: " ++ id) =
      ({ cfg with columns := cfg.columns ++ [⟨id, autoColName id⟩] },
        some YamlSection.columns) := by
  have ht : jsTrim (cl "  - id: " ++ id) = cl "- id: " ++ id :=
    jsTrim_ws_append (cl "  ") (cl "- id: " ++ id) (by decide)
      (nonws_head_of _ '-' rfl (by decide)) (nonws_last_append (cl "- id: ") id hne hw)
  have hm : matchColIdLine (cl "- id: " ++ id) = some id := matchColIdLine_dash id hne hw
  simp only [parseYamlLine, ht, hm]
  rfl

theorem parseYamlLine_colname (cfg : Config) (nm : Str) :
    parseYamlLine (cfg, some YamlSection.columns) (cl "    name: \"" ++ nm ++ cl "\"") =
      (cfg, some YamlSection.columns) := by
  have ht : jsTrim (cl "    name: \"" ++ nm ++ cl "\"") = cl "name: \"" ++ nm ++ cl "\"" :=
    jsTrim_ws_append (cl "    ") (cl "name: \"" ++ nm ++ cl "\"") (by decide)
      (nonws_head_of _ 'n' rfl (by decide))
      (nonws_last_of_suffix (cl "name: \"" ++ nm) (cl "\"") '"' (by decide) rfl (by decide))
  have h1 : matchColIdLine (cl "name: \"" ++ nm ++ cl "\"") = none :=
    matchColIdLine_none _ (by
      intro hc2
      rw [show (cl "name: \"" ++ nm ++ cl "\"").head? = some 'n' from rfl] at hc2
      exact absurd (Option.some.inj hc2) (by decide))
  have h2 : matchColNameLine (cl "name: \"" ++ nm ++ cl "\"") = none :=
    matchColNameLine_none _ (nonws_head_of _ 'n' rfl (by decide))
  simp only [parseYamlLine, ht, h1, h2]
  rfl

theorem parseYamlLine_prio (cfg : Config) (p : Str) (hne : p ≠ [])
    (hw : ∀ x ∈ p, ¬ jsIsSpace x) :
    parseYamlLine (cfg, some YamlSection.priorities) (cl "  - " ++ p) =
      ({ cfg with priorities := cfg.priorities ++ [p] }, some YamlSection.priorities) := by
  have ht : jsTrim (cl "  - " ++ p) = cl "- " ++ p :=
    jsTrim_ws_append (cl "  ") (cl "- " ++ p) (by decide)
      (nonws_head_of _ '-' rfl (by decide)) (nonws_last_append (cl "- ") p hne hw)
  have hm : matchPrioLine (cl "- " ++ p) = some p := matchPrioLine_dash p hne hw
  simp only [parseYamlLine, ht, hm]
  rfl

theorem parseYamlLine_enabled (cfg : Config) (b : Bool) :
    parseYamlLine (cfg, some YamlSection.priorities)
      (cl "  enabled: " ++ boolStr b ++
        cl "              # Enable/disable browser notifications") =
      (cfg, some YamlSection.priorities) := by
  cases b <;> rfl

theorem parseYamlLine_allchanges (cfg : Config) (b : Bool) :
    parseYamlLine (cfg, some YamlSection.priorities)
      (cl "  all_changes: " ++ boolStr b ++
        cl "          # Notify on all task changes (moves, creates, deletes)") =
      (cfg, some YamlSection.priorities) := by
  cases b <;> rfl

theorem parseYamlLine_notify (cfg : Config) (nc : List Str) :
    parseYamlLine (cfg, some YamlSection.priorities) (notifyLine nc) =
      (cfg, some YamlSection.priorities) := by
  unfold notifyLine
  split
  · have ht : jsTrim (cl "  notify_columns: [" ++ joinSep (cl ", ") nc ++
        cl "]     # List of column IDs to notify when tasks move into them") =
        cl "notify_columns: [" ++ joinSep (cl ", ") nc ++
        cl "]     # List of column IDs to notify when tasks move into them" :=
      jsTrim_ws_append (cl "  ")
        (cl "notify_columns: [" ++ joinSep (cl ", ") nc ++
          cl "]     # List of column IDs to notify when tasks move into them") (by decide)
        (nonws_head_of _ 'n' rfl (by decide))
        (nonws_last_of_suffix (cl "notify_columns: [" ++ joinSep (cl ", ") nc)
          (cl "]     # List of column IDs to notify when tasks move into them") 'm'
          (by decide) (by decide) (by decide))
    have hm : matchPrioLine (cl "notify_columns: [" ++ joinSep (cl ", ") nc ++
        cl "]     # List of column IDs to notify when tasks move into them") = none :=
      matchPrioLine_none _ (by
        intro hc2
        rw [show (cl "notify_columns: [" ++ joinSep (cl ", ") nc ++
          cl "]     # List of column IDs to notify when tasks move into them").head? =
          some 'n' from rfl] at hc2
        exact absurd (Option.some.inj hc2) (by decide))
    simp only [parseYamlLine, ht, hm]
    rfl
  · rfl

theorem fold_cols (cols : List Column) (cfg : Config)
    (h : ∀ col ∈ cols, col.id ≠ [] ∧ ∀ x ∈ col.id, ¬ jsIsSpace x) :
    List.foldl parseYamlLine (cfg, some YamlSection.columns)
      ((cols.map (fun col =>
        [cl "  - id: " ++ col.id, cl "    name: \"" ++ col.name ++ cl "\""])).flatten) =
    ({ cfg with columns := cfg.columns ++
        cols.map (fun col => ⟨col.id, autoColName col.id⟩) }, some YamlSection.columns) := by
  induction cols generalizing cfg with
  | nil => simp
  | cons col rest ih =>
    obtain ⟨hne, hw⟩ := h col (List.mem_cons_self col rest)
    simp only [List.map_cons, List.flatten_cons, List.cons_append, List.nil_append,
      List.foldl_cons]
    rw [parseYamlLine_colid cfg col.id hne hw, parseYamlLine_colname]
    rw [ih _ (fun x hx => h x (List.mem_cons_of_mem col hx))]
    simp [List.append_assoc]

theorem fold_prios (ps : List Str) (cfg : Config)
    (h : ∀ p ∈ ps, p ≠ [] ∧ ∀ x ∈ p, ¬ jsIsSpace x) :
    List.foldl parseYamlLine (cfg, some YamlSection.priorities)
      (ps.map (fun p => cl "  - " ++ p)) =
    ({ cfg with priorities := cfg.priorities ++ ps }, some YamlSection.priorities) := by
  induction ps generalizing cfg with
  | nil => simp
  | cons p rest ih =>
    obtain ⟨hne, hw⟩ := h p (List.mem_cons_self p rest)
    simp only [List.map_cons, List.foldl_cons]
    rw [parseYamlLine_prio cfg p hne hw, ih _ (fun x hx => h x (List.mem_cons_of_mem p hx))]
    simp [List.append_assoc]

/-- C6 (corrected, positive half): what the config load of a saved file actually
yields.  `parseSimpleYaml` never reads the notifications block, and column display
names written by `configToYaml` are never read back (the `^\s+name:` branch of the
parser cannot match a trimmed line), so loading a `configToYaml` output returns the
written board name, the column ids with display names regenerated from the ids by
`autoColName`, the written priorities, and no notifications object.  The hypotheses
are the well-formedness conditions the CLI maintains: a nonempty quote-free
newline-free board name, nonempty whitespace-free column ids, newline-free column
display names, nonempty whitespace-free priorities, and newline-free notify-column
entries. -/
theorem parseSimpleYaml_configToYaml (c : Config)
    (hname_ne : c.name ≠ []) (hname_q : '"' ∉ c.name) (hname_nl : '\n' ∉ c.name)
    (hcols : ∀ col ∈ c.columns,
      col.id ≠ [] ∧ (∀ x ∈ col.id, ¬ jsIsSpace x) ∧ '\n' ∉ col.name)
    (hprios : ∀ p ∈ c.priorities, p ≠ [] ∧ ∀ x ∈ p, ¬ jsIsSpace x)
    (hnc : ∀ s ∈ (c.notifications.map Notifications.notify_columns).getD [], '\n' ∉ s) :
    parseSimpleYaml (configToYaml c) =
      ⟨c.name, c.columns.map (fun col => ⟨col.id, autoColName col.id⟩),
        c.priorities, none⟩ := by
  have hid_nl : ∀ col ∈ c.columns, '\n' ∉ col.id :=
    fun col hc hm => ((hcols col hc).2.1 '\n' hm) (by decide)
  have hp_nl : ∀ p ∈ c.priorities, '\n' ∉ p :=
    fun p hp hm => ((hprios p hp).2 '\n' hm) (by decide)
  have hnl : ∀ l ∈ allLines c, '\n' ∉ l := by
    intro l hl
    unfold allLines at hl
    rcases List.mem_append.mp hl with hl2 | hE
    · rcases List.mem_append.mp hl2 with hl3 | hD
      swap
      · rcases List.mem_map.mp hD with ⟨p, hpmem, rfl⟩
        exact not_mem_append (by decide) (hp_nl p hpmem)
      rcases List.mem_append.mp hl3 with hl4 | hC
      swap
      · simp only [List.mem_cons, List.not_mem_nil, or_false] at hC
        rcases hC with rfl | rfl
        · decide
        · decide
      rcases List.mem_append.mp hl4 with hA | hB
      · simp only [List.mem_cons, List.not_mem_nil, or_false] at hA
        rcases hA with rfl | rfl | rfl | rfl
        · decide
        · exact not_mem_append (not_mem_append (by decide) hname_nl) (by decide)
        · decide
        · decide
      · rcases List.mem_flatten.mp hB with ⟨ll, hll, hmem⟩
        rcases List.mem_map.mp hll with ⟨col, hcolmem, rfl⟩
        simp only [List.mem_cons, List.not_mem_nil, or_false] at hmem
        rcases hmem with rfl | rfl
        · exact not_mem_append (by decide) (hid_nl col hcolmem)
        · exact not_mem_append
            (not_mem_append (by decide) ((hcols col hcolmem).2.2)) (by decide)
    · simp only [List.mem_cons, List.not_mem_nil, or_false] at hE
      rcases hE with rfl | rfl | rfl | rfl | rfl | rfl
      · decide
      · decide
      · decide
      · exact not_mem_append (not_mem_append (by decide)
          (by cases (c.notifications.map Notifications.enabled).getD false <;> decide))
          (by decide)
      · exact not_mem_append (not_mem_append (by decide)
          (by cases (c.notifications.map Notifications.all_changes).getD false <;>
            decide)) (by decide)
      · show '\n' ∉ notifyLine _
        unfold notifyLine
        split
        · exact not_mem_append
            (not_mem_append (by decide) (mem_joinSep_of_mem (by decide) hnc))
            (by decide)
        · decide
  rw [configToYaml_linesOf]
  unfold parseSimpleYaml
  rw [splitOnChar_linesOf _ hnl]
  unfold allLines
  simp only [List.foldl_append, List.foldl_cons, List.foldl_nil]
  simp only [parseYamlLine_nil]
  rw [parseYamlLine_hash1]
  rw [parseYamlLine_name _ _ hname_q hname_ne]
  rw [parseYamlLine_cols_hdr]
  rw [fold_cols c.columns _ (fun col hc => ⟨(hcols col hc).1, (hcols col hc).2.1⟩)]
  rw [parseYamlLine_prios_hdr]
  rw [fold_prios c.priorities _ hprios]
  simp only [parseYamlLine_hash2, parseYamlLine_notif_hdr, parseYamlLine_enabled,
    parseYamlLine_allchanges, parseYamlLine_notify]
  rfl

def c6cfg : Config :=
  ⟨cl "B", [⟨cl "todo", cl "To Do"⟩], [cl "low"], some ⟨true, false, []⟩⟩

/-- C6 (counterexample to the claimed round-trip): a configuration with a column
display name that is not `autoColName` of its id ("To Do" for id "todo") and with a
notifications object is not reproduced by loading its own saved form: the loader
drops the notification sub-settings entirely and rewrites the display name. -/
theorem config_load_save_not_identity :
    parseSimpleYaml (configToYaml c6cfg) ≠ c6cfg := by decide

theorem parseSimpleYaml_configToYaml_witness :
    parseSimpleYaml (configToYaml
      ⟨cl "B", [⟨cl "todo", cl "To Do"⟩], [cl "low"], some ⟨true, false, []⟩⟩) =
      ⟨cl "B", [⟨cl "todo", cl "Todo"⟩], [cl "low"], none⟩ :=
  parseSimpleYaml_configToYaml _ (by decide) (by decide) (by decide) (by decide)
    (by decide) (by decide)


/-! ## Claim C2: template-substitution codec round-trip -/
theorem expandRepl_no_dollar : ∀ (repl : Str), '$' ∉ repl →
    ∀ m b a, expandRepl repl m b a = repl := by
  intro repl
  induction repl with
  | nil => intro _ m b a; rfl
  | cons c rest ih =>
    intro h m b a
    have hc : c ≠ '$' := fun he => h (he ▸ List.mem_cons_self c rest)
    have h' : '$' ∉ rest := fun hm => h (List.mem_cons_of_mem c hm)
    unfold expandRepl
    split <;> simp_all

theorem not_isPrefixOf_of_head (pat s : Str) (c d : Char) (hp : pat.head? = some c)
    (hs : s.head? = some d) (hne : c ≠ d) : ¬ pat.isPrefixOf s := by
  cases pat with
  | nil => exact absurd hp (by simp)
  | cons p pt =>
    cases s with
    | nil => exact absurd hs (by simp)
    | cons q qt =>
      intro h
      rw [List.isPrefixOf_iff_prefix] at h
      rcases List.cons_prefix_cons.mp h with ⟨he, _⟩
      exact hne (by rw [← Option.some.inj hp, ← Option.some.inj hs]; exact he)

theorem findSplit_at_start (pat s : Str) (h : pat.isPrefixOf s) :
    findSplit pat s = some ([], s.drop pat.length) := by
  cases s with
  | nil =>
    cases pat with
    | nil => rfl
    | cons p pt => exact absurd h (by simp [List.isPrefixOf])
  | cons c rest =>
    unfold findSplit
    rw [if_pos h]

theorem findSplit_brace (pat A B : Str) (hp : pat.head? = some '{') (hA : '{' ∉ A) :
    findSplit pat (A ++ (pat ++ B)) = some (A, B) := by
  induction A with
  | nil =>
    show findSplit pat (pat ++ B) = some ([], B)
    rw [findSplit_at_start pat (pat ++ B) (isPrefixOf_append_self pat B), List.drop_left]
  | cons c A' ih =>
    have hc : c ≠ '{' := fun he => hA (he ▸ List.mem_cons_self c A')
    have hA' : '{' ∉ A' := fun hm => hA (List.mem_cons_of_mem c hm)
    show findSplit pat (c :: (A' ++ (pat ++ B))) = some (c :: A', B)
    unfold findSplit
    rw [if_neg (not_isPrefixOf_of_head pat (c :: (A' ++ (pat ++ B))) '{' c hp rfl
      (fun he => hc he.symm))]
    rw [ih hA']

theorem replaceFirst_clean (A pat B repl : Str) (hp : pat.head? = some '{')
    (hA : '{' ∉ A) (hr : '$' ∉ repl) :
    replaceFirst (A ++ (pat ++ B)) pat repl = A ++ (repl ++ B) := by
  unfold replaceFirst
  rw [findSplit_brace pat A B hp hA]
  show A ++ expandRepl repl pat A B ++ B = A ++ (repl ++ B)
  rw [expandRepl_no_dollar repl hr]
  simp [List.append_assoc]

theorem assoc3 (a b c X : Str) : a ++ (b ++ (c ++ X)) = (a ++ (b ++ c)) ++ X := by
  simp [List.append_assoc]

theorem assoc5 (a b c d e X : Str) :
    a ++ (b ++ (c ++ (d ++ (e ++ X)))) = (a ++ (b ++ (c ++ (d ++ e)))) ++ X := by
  simp [List.append_assoc]

theorem assoc7 (a b c d e f g X : Str) :
    a ++ (b ++ (c ++ (d ++ (e ++ (f ++ (g ++ X)))))) =
      (a ++ (b ++ (c ++ (d ++ (e ++ (f ++ g)))))) ++ X := by
  simp [List.append_assoc]

theorem assoc9 (a b c d e f g h i X : Str) :
    a ++ (b ++ (c ++ (d ++ (e ++ (f ++ (g ++ (h ++ (i ++ X)))))))) =
      (a ++ (b ++ (c ++ (d ++ (e ++ (f ++ (g ++ (h ++ i)))))))) ++ X := by
  simp [List.append_assoc]

theorem assoc11 (a b c d e f g h i j k X : Str) :
    a ++ (b ++ (c ++ (d ++ (e ++ (f ++ (g ++ (h ++ (i ++ (j ++ (k ++ X)))))))))) =
      (a ++ (b ++ (c ++ (d ++ (e ++ (f ++ (g ++ (h ++ (i ++ (j ++ k)))))))))) ++ X := by
  simp [List.append_assoc]

theorem encodeTask_explicit (id title priority : Str) (tags : List Str) (assigned dt : Str)
    (hid : ∀ x ∈ id, isWordChar x)
    (ht3 : '{' ∉ title) (ht4 : '$' ∉ title)
    (hp3 : '{' ∉ priority) (hp4 : '$' ∉ priority)
    (htg3 : '{' ∉ tagsStrOf tags) (htg4 : '$' ∉ tagsStrOf tags)
    (ha3 : '{' ∉ assigned) (ha4 : '$' ∉ assigned)
    (hd4 : '$' ∉ dt) :
    encodeTask id title priority tags assigned dt [] [] =
      cl "---\nid: " ++ (id ++ (cl "\ntitle: \"" ++ (title ++ (cl "\"\npriority: " ++
        (priority ++ (cl "\ntags: " ++ (tagsStrOf tags ++ (cl "\nassigned: " ++
        (assigned ++ (cl "\n---\n\n## Description\n\n\n\n## Notes\n\n\n\n## History\n- " ++
        (dt ++ cl ": Task created\n"))))))))))) := by
  have hid3 : '{' ∉ id := fun hm => absurd (hid '{' hm) (by decide)
  have hid4 : '$' ∉ id := fun hm => absurd (hid '$' hm) (by decide)
  simp only [encodeTask]
  rw [if_neg (fun h => h rfl), if_neg (fun h => h rfl)]
  rw [show templateContent = cl "---\nid: " ++ (cl "{id}" ++
    cl "\ntitle: \"{title}\"\npriority: {priority}\ntags: {tags}\nassigned: {assigned}\n---\n\n## Description\n\n\n\n## Notes\n\n\n\n## History\n- {datetime}: Task created\n")
    from rfl]
  rw [replaceFirst_clean (cl "---\nid: ") (cl "{id}")
    (cl "\ntitle: \"{title}\"\npriority: {priority}\ntags: {tags}\nassigned: {assigned}\n---\n\n## Description\n\n\n\n## Notes\n\n\n\n## History\n- {datetime}: Task created\n")
    id rfl (by decide) hid4]
  rw [show cl "\ntitle: \"{title}\"\npriority: {priority}\ntags: {tags}\nassigned: {assigned}\n---\n\n## Description\n\n\n\n## Notes\n\n\n\n## History\n- {datetime}: Task created\n"
    = cl "\ntitle: \"" ++ (cl "{title}" ++
      cl "\"\npriority: {priority}\ntags: {tags}\nassigned: {assigned}\n---\n\n## Description\n\n\n\n## Notes\n\n\n\n## History\n- {datetime}: Task created\n")
    from rfl]
  rw [assoc3 (cl "---\nid: ") id (cl "\ntitle: \"")]
  rw [replaceFirst_clean _ (cl "{title}")
    (cl "\"\npriority: {priority}\ntags: {tags}\nassigned: {assigned}\n---\n\n## Description\n\n\n\n## Notes\n\n\n\n## History\n- {datetime}: Task created\n")
    title rfl
    (not_mem_append (by decide) (not_mem_append hid3 (by decide))) ht4]
  simp only [List.append_assoc]
  rw [show cl "\"\npriority: {priority}\ntags: {tags}\nassigned: {assigned}\n---\n\n## Description\n\n\n\n## Notes\n\n\n\n## History\n- {datetime}: Task created\n"
    = cl "\"\npriority: " ++ (cl "{priority}" ++
      cl "\ntags: {tags}\nassigned: {assigned}\n---\n\n## Description\n\n\n\n## Notes\n\n\n\n## History\n- {datetime}: Task created\n")
    from rfl]
  rw [assoc5 (cl "---\nid: ") id (cl "\ntitle: \"") title (cl "\"\npriority: ")]
  rw [replaceFirst_clean _ (cl "{priority}")
    (cl "\ntags: {tags}\nassigned: {assigned}\n---\n\n## Description\n\n\n\n## Notes\n\n\n\n## History\n- {datetime}: Task created\n")
    priority rfl
    (not_mem_append (by decide) (not_mem_append hid3 (not_mem_append (by decide)
      (not_mem_append ht3 (by decide))))) hp4]
  simp only [List.append_assoc]
  rw [show cl "\ntags: {tags}\nassigned: {assigned}\n---\n\n## Description\n\n\n\n## Notes\n\n\n\n## History\n- {datetime}: Task created\n"
    = cl "\ntags: " ++ (cl "{tags}" ++
      cl "\nassigned: {assigned}\n---\n\n## Description\n\n\n\n## Notes\n\n\n\n## History\n- {datetime}: Task created\n")
    from rfl]
  rw [assoc7 (cl "---\nid: ") id (cl "\ntitle: \"") title (cl "\"\npriority: ") priority
    (cl "\ntags: ")]
  rw [replaceFirst_clean _ (cl "{tags}")
    (cl "\nassigned: {assigned}\n---\n\n## Description\n\n\n\n## Notes\n\n\n\n## History\n- {datetime}: Task created\n")
    (tagsStrOf tags) rfl
    (not_mem_append (by decide) (not_mem_append hid3 (not_mem_append (by decide)
      (not_mem_append ht3 (not_mem_append (by decide) (not_mem_append hp3 (by decide)))))))
    htg4]
  simp only [List.append_assoc]
  rw [show cl "\nassigned: {assigned}\n---\n\n## Description\n\n\n\n## Notes\n\n\n\n## History\n- {datetime}: Task created\n"
    = cl "\nassigned: " ++ (cl "{assigned}" ++
      cl "\n---\n\n## Description\n\n\n\n## Notes\n\n\n\n## History\n- {datetime}: Task created\n")
    from rfl]
  rw [assoc9 (cl "---\nid: ") id (cl "\ntitle: \"") title (cl "\"\npriority: ") priority
    (cl "\ntags: ") (tagsStrOf tags) (cl "\nassigned: ")]
  rw [replaceFirst_clean _ (cl "{assigned}")
    (cl "\n---\n\n## Description\n\n\n\n## Notes\n\n\n\n## History\n- {datetime}: Task created\n")
    assigned rfl
    (not_mem_append (by decide) (not_mem_append hid3 (not_mem_append (by decide)
      (not_mem_append ht3 (not_mem_append (by decide) (not_mem_append hp3
        (not_mem_append (by decide) (not_mem_append htg3 (by decide)))))))))
    ha4]
  simp only [List.append_assoc]
  rw [show cl "\n---\n\n## Description\n\n\n\n## Notes\n\n\n\n## History\n- {datetime}: Task created\n"
    = cl "\n---\n\n## Description\n\n\n\n## Notes\n\n\n\n## History\n- " ++
      (cl "{datetime}" ++ cl ": Task created\n")
    from rfl]
  rw [assoc11 (cl "---\nid: ") id (cl "\ntitle: \"") title (cl "\"\npriority: ") priority
    (cl "\ntags: ") (tagsStrOf tags) (cl "\nassigned: ") assigned
    (cl "\n---\n\n## Description\n\n\n\n## Notes\n\n\n\n## History\n- ")]
  rw [replaceFirst_clean _ (cl "{datetime}") (cl ": Task created\n") dt rfl
    (not_mem_append (by decide) (not_mem_append hid3 (not_mem_append (by decide)
      (not_mem_append ht3 (not_mem_append (by decide) (not_mem_append hp3
        (not_mem_append (by decide) (not_mem_append htg3 (not_mem_append (by decide)
          (not_mem_append ha3 (by decide)))))))))))
    hd4]
  simp only [List.append_assoc]

theorem ne_nil_of_head (l : Str) (c : Char) (h : l.head? = some c) : l ≠ [] := by
  intro he
  rw [he] at h
  exact Option.noConfusion h

theorem ne_of_head (l r : Str) (c d : Char) (hl : l.head? = some c) (hr : r.head? = some d)
    (h : c ≠ d) : l ≠ r := by
  intro he
  rw [he, hr] at hl
  exact h (Option.some.inj hl).symm

theorem wordchar_not_ws (c : Char) (h : isWordChar c) : ¬ jsIsSpace c := by
  intro hws
  unfold jsIsSpace at hws
  simp only [decide_eq_true_eq] at hws
  rcases hws with rfl | rfl | rfl | rfl | rfl | rfl <;> exact absurd h (by decide)

theorem consumeWsNewline_none (r : Str) (h : ∀ c, r.head? = some c → ¬ jsIsSpace c) :
    consumeWsNewline r = none := by
  cases r with
  | nil => rfl
  | cons c rest =>
    unfold consumeWsNewline
    rw [if_neg (h c rfl)]

theorem consumeWsNewline_nl (r : Str) (h : ∀ c, r.head? = some c → ¬ jsIsSpace c) :
    consumeWsNewline ('\n' :: r) = some r := by
  unfold consumeWsNewline
  rw [if_pos (show jsIsSpace '\n' = true by decide), consumeWsNewline_none r h]
  simp

theorem consumeWsNewline_nl2 (r : Str) (h : ∀ c, r.head? = some c → ¬ jsIsSpace c) :
    consumeWsNewline ('\n' :: '\n' :: r) = some r := by
  conv_lhs => rw [consumeWsNewline]
  rw [if_pos (show jsIsSpace '\n' = true by decide), consumeWsNewline_nl r h]

theorem findFmEnd_term (B : Str) (hB : ∀ c, B.head? = some c → ¬ jsIsSpace c) :
    findFmEnd ('\n' :: (cl "---\n\n" ++ B)) = some ([], B) := by
  unfold findFmEnd
  split
  case isTrue h =>
    have hd : (('\n' :: (cl "---\n\n" ++ B)).drop 4) = '\n' :: '\n' :: B := rfl
    rw [hd, consumeWsNewline_nl2 B hB]
  case isFalse h =>
    exact absurd (isPrefixOf_append_self (cl "\n---") ('\n' :: '\n' :: B)) h

theorem findFmEnd_cons_line (line rest b a : Str) (h : '\n' ∉ line)
    (hr : findFmEnd ('\n' :: rest) = some (b, a)) :
    findFmEnd (line ++ '\n' :: rest) = some (line ++ b, a) := by
  induction line with
  | nil => simpa using hr
  | cons c cs ih =>
    have hc : c ≠ '\n' := fun he => h (he ▸ List.mem_cons_self c cs)
    show findFmEnd (c :: (cs ++ '\n' :: rest)) = some (c :: (cs ++ b), a)
    unfold findFmEnd
    rw [if_neg (not_isPrefixOf_of_head (cl "\n---") (c :: (cs ++ '\n' :: rest)) '\n' c rfl rfl
      (fun he => hc he.symm))]
    rw [ih (fun hm => h (List.mem_cons_of_mem c hm))]

theorem matchField_clean (K V : Str) (hK1 : K ≠ []) (hK2 : ∀ x ∈ K, isWordChar x)
    (hV1 : V ≠ []) (hVh : ∀ c, V.head? = some c → ¬ jsIsSpace c)
    (hVl : ∀ c, V.getLast? = some c → ¬ jsIsSpace c) :
    matchField (K ++ (cl ": " ++ V)) = some (K, V) := by
  obtain ⟨k0, K', rfl⟩ : ∃ k0 K', K = k0 :: K' := by
    cases K with
    | nil => exact absurd rfl hK1
    | cons a b => exact ⟨a, b, rfl⟩
  have hk0 : isWordChar k0 := hK2 k0 (List.mem_cons_self _ _)
  have ht : jsTrim ((k0 :: K') ++ (cl ": " ++ V)) = (k0 :: K') ++ (cl ": " ++ V) := by
    refine jsTrim_eq_self _ (nonws_head_of _ k0 rfl (wordchar_not_ws k0 hk0)) ?h2
    intro c hc
    rw [getLast?_append_right (k0 :: K') _ (ne_nil_of_head (cl ": " ++ V) ':' rfl)] at hc
    rw [getLast?_append_right (cl ": ") V hV1] at hc
    exact hVl c hc
  have hkey : ((k0 :: K') ++ (cl ": " ++ V)).takeWhile isWordChar = k0 :: K' :=
    takeWhile_append_neg _ (k0 :: K') ':' (' ' :: V) hK2 (by decide)
  have hv : (' ' :: V).dropWhile jsIsSpace = V := by
    rw [List.dropWhile_cons_of_pos (by decide)]
    cases V with
    | nil => rfl
    | cons v0 V' => exact List.dropWhile_cons_of_neg (hVh v0 rfl)
  have htrim : jsTrim V = V := jsTrim_eq_self V hVh hVl
  simp only [matchField, ht, hkey]
  rw [List.drop_left]
  show (if (k0 :: K') = [] then none
        else if (' ' :: V).dropWhile jsIsSpace = [] then none
        else some (k0 :: K', jsTrim ((' ' :: V).dropWhile jsIsSpace))) = some (k0 :: K', V)
  rw [if_neg (List.cons_ne_nil k0 K'), hv, if_neg hV1, htrim]

theorem stripQuotes_wrap (s : Str) : stripQuotes ('"' :: (s ++ cl "\"")) = s := by
  have h1 : (s ++ cl "\"").getLast? = some '"' := by
    rw [getLast?_append_right s (cl "\"") (by decide)]
    decide
  have h2 : (s ++ cl "\"").dropLast = s := by
    rw [show s ++ cl "\"" = s ++ ['"'] from rfl, List.dropLast_concat]
  simp [stripQuotes, h1, h2]

theorem stripBrackets_wrap (s : Str) : stripBrackets ('[' :: (s ++ cl "]")) = s := by
  have h1 : (s ++ cl "]").getLast? = some ']' := by
    rw [getLast?_append_right s (cl "]") (by decide)]
    decide
  have h2 : (s ++ cl "]").dropLast = s := by
    rw [show s ++ cl "]" = s ++ [']'] from rfl, List.dropLast_concat]
  simp [stripBrackets, h1, h2]

theorem parseValue_quoted (s : Str) (hne : s ≠ []) :
    parseValue ('"' :: (s ++ cl "\"")) = .str s := by
  have hn1 : ('"' :: (s ++ cl "\"")) ≠ cl "\"\"" := by
    intro he
    have h2 := (List.cons.inj (show '"' :: (s ++ cl "\"") = '"' :: ('"' :: []) from he)).2
    have hlen := congrArg List.length (show s ++ ['"'] = ['"'] from h2)
    simp at hlen
    exact hne hlen
  have hn2 : ('"' :: (s ++ cl "\"")) ≠ [Char.ofNat 39, Char.ofNat 39] := by
    intro he
    exact absurd (List.cons.inj he).1 (by decide)
  unfold parseValue
  rw [if_neg (by rintro (h | h); exacts [hn1 h, hn2 h])]
  rw [if_pos (show ('"' :: (s ++ cl "\"")).head? = some '"' ∨
    ('"' :: (s ++ cl "\"")).head? = some (Char.ofNat 39) from Or.inl rfl)]
  rw [stripQuotes_wrap]

theorem parseValue_plain (s : Str)
    (h : ∀ c, s.head? = some c → c ≠ '"' ∧ c ≠ Char.ofNat 39 ∧ c ≠ '[') :
    parseValue s = .str s := by
  unfold parseValue
  cases s with
  | nil => rfl
  | cons c rest =>
    obtain ⟨h1, h2, h3⟩ := h c rfl
    rw [if_neg, if_neg, if_neg]
    · intro he
      exact h3 (Option.some.inj he)
    · rintro (he | he)
      · exact h1 (Option.some.inj he)
      · exact h2 (Option.some.inj he)
    · rintro (he | he)
      · exact h1 (List.cons.inj (show c :: rest = '"' :: ('"' :: []) from he)).1
      · exact h2 (List.cons.inj he).1

theorem splitOnChar_append_sep (sep : Char) (x rest : Str) (h : sep ∉ x) :
    splitOnChar sep (x ++ sep :: rest) = x :: splitOnChar sep rest := by
  induction x with
  | nil => simp [splitOnChar]
  | cons c r ih =>
    have hc : c ≠ sep := fun he => h (he ▸ List.mem_cons_self c r)
    rw [List.cons_append]
    conv_lhs => rw [splitOnChar]
    rw [if_neg hc, ih (fun hm => h (List.mem_cons_of_mem c hm))]

theorem splitOnChar_no_sep (sep : Char) (s : Str) (h : sep ∉ s) :
    splitOnChar sep s = [s] := by
  induction s with
  | nil => rfl
  | cons c r ih =>
    have hc : c ≠ sep := fun he => h (he ▸ List.mem_cons_self c r)
    conv_lhs => rw [splitOnChar]
    rw [if_neg hc, ih (fun hm => h (List.mem_cons_of_mem c hm))]

theorem jsTrim_cons_ws (c : Char) (s : Str) (h : jsIsSpace c) :
    jsTrim (c :: s) = jsTrim s := by
  unfold jsTrim
  rw [List.dropWhile_cons_of_pos h]

theorem split_join_tags (tags : List Str)
    (h : ∀ tg ∈ tags, tg ≠ [] ∧ ',' ∉ tg ∧ jsTrim tg = tg) :
    tags ≠ [] → (splitOnChar ',' (joinSep (cl ", ") tags)).map jsTrim = tags := by
  induction tags with
  | nil => intro hne; exact absurd rfl hne
  | cons tg rest ih =>
    intro _
    obtain ⟨h1, h2, h3⟩ := h tg (List.mem_cons_self tg rest)
    cases rest with
    | nil =>
      show (splitOnChar ',' (joinSep (cl ", ") [tg])).map jsTrim = [tg]
      rw [show joinSep (cl ", ") [tg] = tg from rfl]
      rw [splitOnChar_no_sep ',' tg h2]
      simp [h3]
    | cons t2 ts =>
      have hih := ih (fun x hx => h x (List.mem_cons_of_mem tg hx)) (by simp)
      rw [show joinSep (cl ", ") (tg :: t2 :: ts) =
        (tg ++ cl ", ") ++ joinSep (cl ", ") (t2 :: ts) from rfl]
      rw [List.append_assoc]
      rw [show tg ++ (cl ", " ++ joinSep (cl ", ") (t2 :: ts)) =
        tg ++ (',' :: (' ' :: joinSep (cl ", ") (t2 :: ts))) from rfl]
      rw [splitOnChar_append_sep ',' tg (' ' :: joinSep (cl ", ") (t2 :: ts)) h2]
      obtain ⟨p, ps, hps⟩ : ∃ p ps, splitOnChar ',' (joinSep (cl ", ") (t2 :: ts)) = p :: ps := by
        cases hsp : splitOnChar ',' (joinSep (cl ", ") (t2 :: ts)) with
        | nil => exact absurd hsp (splitOnChar_ne_nil ',' _)
        | cons p ps => exact ⟨p, ps, rfl⟩
      have hsp2 : splitOnChar ',' (' ' :: joinSep (cl ", ") (t2 :: ts)) = (' ' :: p) :: ps := by
        conv_lhs => rw [splitOnChar]
        rw [if_neg (by decide), hps]
      rw [hsp2]
      rw [hps] at hih
      simp only [List.map_cons] at hih ⊢
      rw [h3, jsTrim_cons_ws ' ' p (by decide)]
      rw [(List.cons.inj hih).1, (List.cons.inj hih).2]

theorem parseValue_tags (tags : List Str)
    (h : ∀ tg ∈ tags, tg ≠ [] ∧ ',' ∉ tg ∧ jsTrim tg = tg) :
    parseValue (tagsStrOf tags) = .list tags := by
  cases tags with
  | nil => decide
  | cons tg tgs =>
    have hjne : joinSep (cl ", ") (tg :: tgs) ≠ [] := by
      cases tgs with
      | nil =>
        show tg ≠ []
        exact (h tg (List.mem_cons_self tg [])).1
      | cons t2 ts =>
        show (tg ++ cl ", ") ++ joinSep (cl ", ") (t2 :: ts) ≠ []
        intro he
        rcases List.append_eq_nil.mp he with ⟨he1, _⟩
        rcases List.append_eq_nil.mp he1 with ⟨_, he2⟩
        exact absurd he2 (by decide)
    have hsplit := split_join_tags (tg :: tgs) h (by simp)
    rw [show tagsStrOf (tg :: tgs) =
      '[' :: (joinSep (cl ", ") (tg :: tgs) ++ cl "]") from rfl]
    unfold parseValue
    rw [if_neg, if_neg, if_pos (show ('[' :: (joinSep (cl ", ") (tg :: tgs) ++ cl "]")).head?
      = some '[' from rfl)]
    · rw [stripBrackets_wrap, if_neg hjne, hsplit]
    · rintro (he | he)
      · exact absurd (Option.some.inj he) (by decide)
      · exact absurd (Option.some.inj he) (by decide)
    · rintro (he | he)
      · exact absurd (List.cons.inj (show '[' :: _ = '"' :: ('"' :: []) from he)).1 (by decide)
      · exact absurd (List.cons.inj he).1 (by decide)

theorem mem_of_head (l : Str) (c : Char) (h : l.head? = some c) : c ∈ l := by
  cases l with
  | nil => exact absurd h (by simp)
  | cons a r =>
    rw [show (a :: r).head? = some a from rfl] at h
    rw [← Option.some.inj h]
    exact List.mem_cons_self a r

theorem findFmEnd_nl_step (c : Char) (X b a : Str) (hc : c ≠ '-')
    (hr : findFmEnd (c :: X) = some (b, a)) :
    findFmEnd ('\n' :: c :: X) = some ('\n' :: b, a) := by
  unfold findFmEnd
  rw [if_neg (by
    intro h
    rw [List.isPrefixOf_iff_prefix] at h
    have h2 := (List.cons_prefix_cons.mp
      (show ('\n' :: ('-' :: '-' :: '-' :: [])) <+: ('\n' :: (c :: X)) from h)).2
    exact hc ((List.cons_prefix_cons.mp h2).1.symm))]
  rw [hr]

theorem findFmEnd_five (l1 l2 l3 l4 l5 B : Str)
    (h1 : '\n' ∉ l1) (h2 : '\n' ∉ l2) (h3 : '\n' ∉ l3) (h4 : '\n' ∉ l4) (h5 : '\n' ∉ l5)
    (c2 c3 c4 c5 : Char) (hl2 : l2.head? = some c2) (hc2 : c2 ≠ '-')
    (hl3 : l3.head? = some c3) (hc3 : c3 ≠ '-')
    (hl4 : l4.head? = some c4) (hc4 : c4 ≠ '-')
    (hl5 : l5.head? = some c5) (hc5 : c5 ≠ '-')
    (hB : ∀ c, B.head? = some c → ¬ jsIsSpace c) :
    findFmEnd (l1 ++ ('\n' :: (l2 ++ ('\n' :: (l3 ++ ('\n' :: (l4 ++ ('\n' ::
        (l5 ++ (cl "\n---\n\n" ++ B))))))))) ) =
      some (l1 ++ ('\n' :: (l2 ++ ('\n' :: (l3 ++ ('\n' :: (l4 ++ ('\n' :: l5))))))), B) := by
  obtain ⟨t2, rfl⟩ : ∃ t, l2 = c2 :: t := by
    cases l2 with
    | nil => exact absurd hl2 (by simp)
    | cons x xs => exact ⟨xs, by rw [← Option.some.inj hl2]⟩
  obtain ⟨t3, rfl⟩ : ∃ t, l3 = c3 :: t := by
    cases l3 with
    | nil => exact absurd hl3 (by simp)
    | cons x xs => exact ⟨xs, by rw [← Option.some.inj hl3]⟩
  obtain ⟨t4, rfl⟩ : ∃ t, l4 = c4 :: t := by
    cases l4 with
    | nil => exact absurd hl4 (by simp)
    | cons x xs => exact ⟨xs, by rw [← Option.some.inj hl4]⟩
  obtain ⟨t5, rfl⟩ : ∃ t, l5 = c5 :: t := by
    cases l5 with
    | nil => exact absurd hl5 (by simp)
    | cons x xs => exact ⟨xs, by rw [← Option.some.inj hl5]⟩
  have F5 : findFmEnd ('\n' :: (cl "---\n\n" ++ B)) = some ([], B) := findFmEnd_term B hB
  have E5 : findFmEnd ((c5 :: t5) ++ ('\n' :: (cl "---\n\n" ++ B))) = some (c5 :: t5, B) := by
    have h := findFmEnd_cons_line (c5 :: t5) (cl "---\n\n" ++ B) [] B h5 F5
    simpa using h
  have F4 : findFmEnd ('\n' :: ((c5 :: t5) ++ ('\n' :: (cl "---\n\n" ++ B)))) =
      some ('\n' :: (c5 :: t5), B) :=
    findFmEnd_nl_step c5 _ _ B hc5 E5
  have E4 : findFmEnd ((c4 :: t4) ++ ('\n' :: ((c5 :: t5) ++ ('\n' :: (cl "---\n\n" ++ B))))) =
      some ((c4 :: t4) ++ ('\n' :: (c5 :: t5)), B) :=
    findFmEnd_cons_line (c4 :: t4) _ _ B h4 F4
  have F3 : findFmEnd ('\n' :: ((c4 :: t4) ++ ('\n' :: ((c5 :: t5) ++
      ('\n' :: (cl "---\n\n" ++ B)))))) =
      some ('\n' :: ((c4 :: t4) ++ ('\n' :: (c5 :: t5))), B) :=
    findFmEnd_nl_step c4 _ _ B hc4 E4
  have E3 : findFmEnd ((c3 :: t3) ++ ('\n' :: ((c4 :: t4) ++ ('\n' :: ((c5 :: t5) ++
      ('\n' :: (cl "---\n\n" ++ B))))))) =
      some ((c3 :: t3) ++ ('\n' :: ((c4 :: t4) ++ ('\n' :: (c5 :: t5)))), B) :=
    findFmEnd_cons_line (c3 :: t3) _ _ B h3 F3
  have F2 : findFmEnd ('\n' :: ((c3 :: t3) ++ ('\n' :: ((c4 :: t4) ++ ('\n' :: ((c5 :: t5) ++
      ('\n' :: (cl "---\n\n" ++ B)))))))) =
      some ('\n' :: ((c3 :: t3) ++ ('\n' :: ((c4 :: t4) ++ ('\n' :: (c5 :: t5))))), B) :=
    findFmEnd_nl_step c3 _ _ B hc3 E3
  have E2 : findFmEnd ((c2 :: t2) ++ ('\n' :: ((c3 :: t3) ++ ('\n' :: ((c4 :: t4) ++
      ('\n' :: ((c5 :: t5) ++ ('\n' :: (cl "---\n\n" ++ B))))))))) =
      some ((c2 :: t2) ++ ('\n' :: ((c3 :: t3) ++ ('\n' :: ((c4 :: t4) ++
        ('\n' :: (c5 :: t5)))))), B) :=
    findFmEnd_cons_line (c2 :: t2) _ _ B h2 F2
  have F1 : findFmEnd ('\n' :: ((c2 :: t2) ++ ('\n' :: ((c3 :: t3) ++ ('\n' :: ((c4 :: t4) ++
      ('\n' :: ((c5 :: t5) ++ ('\n' :: (cl "---\n\n" ++ B)))))))))) =
      some ('\n' :: ((c2 :: t2) ++ ('\n' :: ((c3 :: t3) ++ ('\n' :: ((c4 :: t4) ++
        ('\n' :: (c5 :: t5))))))), B) :=
    findFmEnd_nl_step c2 _ _ B hc2 E2
  exact findFmEnd_cons_line l1 _ _ B h1 F1

theorem parseFrontmatter_entry (R : Str) (hR : ∀ c, R.head? = some c → ¬ jsIsSpace c)
    (fm body : Str) (hfind : findFmEnd R = some (fm, body)) :
    parseFrontmatter (cl "---\n" ++ R) = some (parseFmLines fm, body) := by
  unfold parseFrontmatter
  split
  case isFalse h => exact absurd (isPrefixOf_append_self (cl "---") ('\n' :: R)) h
  case isTrue h =>
    have hdrop : (cl "---\n" ++ R).drop 3 = '\n' :: R := rfl
    rw [hdrop, consumeWsNewline_nl R hR]
    show (match findFmEnd R with
          | none => none
          | some (fmStr, body) => some (parseFmLines fmStr, body)) =
        some (parseFmLines fm, body)
    rw [hfind]

theorem tagsStrOf_not_mem (ch : Char) (tags : List Str) (hch1 : ch ≠ '[') (hch2 : ch ≠ ']')
    (hch3 : ch ∉ cl ", ") (h : ∀ tg ∈ tags, ch ∉ tg) : ch ∉ tagsStrOf tags := by
  unfold tagsStrOf
  split
  · intro hm
    rcases List.mem_cons.mp (show ch ∈ '[' :: (']' :: []) from hm) with he | hm2
    · exact hch1 he
    · rcases List.mem_cons.mp hm2 with he | hm3
      · exact hch2 he
      · exact absurd hm3 (List.not_mem_nil ch)
  · intro hm
    rcases List.mem_cons.mp hm with he | hm2
    · exact hch1 he
    · rcases List.mem_append.mp hm2 with hm3 | hm3
      · exact mem_joinSep_of_mem hch3 h hm3
      · rcases List.mem_cons.mp hm3 with he | hm4
        · exact hch2 he
        · exact absurd hm4 (List.not_mem_nil ch)

/-- C2 (corrected, positive half): for a record whose fields are clean — the id a
nonempty word-character string, the title nonempty and free of newlines, braces and
dollar signs, the priority additionally trimmed and not starting with a quote or
bracket, each tag comma-free and trim-stable, the assignee empty or priority-like —
the file produced by create's template substitution parses back through
`parseFrontmatter` to exactly the five cache-relevant fields.  The assignee is
recovered through the `frontmatter.assigned || ''` read the reconciliation code
performs, because an empty assignee writes a line `assigned: ` whose
`^(\w+):\s*(.+)$` match fails, dropping the key entirely. -/
theorem encode_parseFrontmatter_roundtrip
    (id title priority : Str) (tags : List Str) (assigned dt : Str)
    (hid1 : id ≠ []) (hid2 : ∀ x ∈ id, isWordChar x)
    (ht1 : title ≠ []) (ht2 : '\n' ∉ title) (ht3 : '{' ∉ title) (ht4 : '$' ∉ title)
    (hp1 : priority ≠ []) (hp3 : '{' ∉ priority) (hp4 : '$' ∉ priority)
    (hph : ∀ c, priority.head? = some c →
      ¬ jsIsSpace c ∧ c ≠ '"' ∧ c ≠ Char.ofNat 39 ∧ c ≠ '[')
    (hpl : ∀ c, priority.getLast? = some c → ¬ jsIsSpace c)
    (hpnl : '\n' ∉ priority)
    (htg : ∀ tg ∈ tags,
      tg ≠ [] ∧ ',' ∉ tg ∧ '\n' ∉ tg ∧ '{' ∉ tg ∧ '$' ∉ tg ∧ jsTrim tg = tg)
    (hass : assigned = [] ∨ ('\n' ∉ assigned ∧ '{' ∉ assigned ∧ '$' ∉ assigned ∧
      (∀ c, assigned.head? = some c →
        ¬ jsIsSpace c ∧ c ≠ '"' ∧ c ≠ Char.ofNat 39 ∧ c ≠ '[') ∧
      (∀ c, assigned.getLast? = some c → ¬ jsIsSpace c)))
    (hd4 : '$' ∉ dt) :
    ∃ fm body,
      parseFrontmatter (encodeTask id title priority tags assigned dt [] []) =
        some (fm, body) ∧
      aLookup fm (cl "id") = some (.str id) ∧
      aLookup fm (cl "title") = some (.str title) ∧
      aLookup fm (cl "priority") = some (.str priority) ∧
      aLookup fm (cl "tags") = some (.list tags) ∧
      jsOrDefault (aLookup fm (cl "assigned")) (.str []) = .str assigned := by
  have hidh : ∀ c, id.head? = some c → ¬ jsIsSpace c :=
    fun c hc => wordchar_not_ws c (hid2 c (mem_of_head id c hc))
  have hidl : ∀ c, id.getLast? = some c → ¬ jsIsSpace c :=
    fun c hc => wordchar_not_ws c (hid2 c (List.mem_of_mem_getLast? hc))
  have hidnl : '\n' ∉ id := fun hm => absurd (hid2 '\n' hm) (by decide)
  have htgS_brace : '{' ∉ tagsStrOf tags :=
    tagsStrOf_not_mem '{' tags (by decide) (by decide) (by decide)
      (fun tg h => (htg tg h).2.2.2.1)
  have htgS_dollar : '$' ∉ tagsStrOf tags :=
    tagsStrOf_not_mem '$' tags (by decide) (by decide) (by decide)
      (fun tg h => (htg tg h).2.2.2.2.1)
  have htgS_nl : '\n' ∉ tagsStrOf tags :=
    tagsStrOf_not_mem '\n' tags (by decide) (by decide) (by decide)
      (fun tg h => (htg tg h).2.2.1)
  have htgSne : tagsStrOf tags ≠ [] := by
    unfold tagsStrOf
    split
    · decide
    · exact List.cons_ne_nil _ _
  have htgSh : ∀ c, (tagsStrOf tags).head? = some c → ¬ jsIsSpace c := by
    unfold tagsStrOf
    split
    · intro c hc
      rw [show (cl "[]").head? = some '[' from rfl] at hc
      rw [← Option.some.inj hc]
      decide
    · intro c hc
      rw [show ('[' :: (joinSep (cl ", ") tags ++ [']'])).head? = some '[' from rfl] at hc
      rw [← Option.some.inj hc]
      decide
  have htgSl : ∀ c, (tagsStrOf tags).getLast? = some c → ¬ jsIsSpace c := by
    unfold tagsStrOf
    split
    · intro c hc
      rw [show (cl "[]").getLast? = some ']' from by decide] at hc
      rw [← Option.some.inj hc]
      decide
    · intro c hc
      rw [show ('[' :: (joinSep (cl ", ") tags ++ [']'])) =
        ('[' :: joinSep (cl ", ") tags) ++ [']'] from by simp] at hc
      rw [getLast?_append_right _ [']'] (by decide)] at hc
      rw [show ([']'] : Str).getLast? = some ']' from rfl] at hc
      rw [← Option.some.inj hc]
      decide
  have hpv_tags : parseValue (tagsStrOf tags) = .list tags :=
    parseValue_tags tags (fun tg h => ⟨(htg tg h).1, (htg tg h).2.1, (htg tg h).2.2.2.2.2⟩)
  have ha3 : '{' ∉ assigned := by
    rcases hass with rfl | h
    · simp
    · exact h.2.1
  have ha4 : '$' ∉ assigned := by
    rcases hass with rfl | h
    · simp
    · exact h.2.2.1
  have hanl : '\n' ∉ assigned := by
    rcases hass with rfl | h
    · simp
    · exact h.1
  have henc := encodeTask_explicit id title priority tags assigned dt hid2 ht3 ht4 hp3 hp4
    htgS_brace htgS_dollar ha3 ha4 hd4
  have hcast : cl "---\nid: " ++ (id ++ (cl "\ntitle: \"" ++ (title ++ (cl "\"\npriority: " ++
      (priority ++ (cl "\ntags: " ++ (tagsStrOf tags ++ (cl "\nassigned: " ++
      (assigned ++ (cl "\n---\n\n## Description\n\n\n\n## Notes\n\n\n\n## History\n- " ++
      (dt ++ cl ": Task created\n"))))))))))) =
      cl "---\n" ++ ((cl "id: " ++ id) ++ ('\n' :: ((cl "title: \"" ++ (title ++ cl "\"")) ++
        ('\n' :: ((cl "priority: " ++ priority) ++ ('\n' :: ((cl "tags: " ++ tagsStrOf tags) ++
        ('\n' :: ((cl "assigned: " ++ assigned) ++ (cl "\n---\n\n" ++
        (cl "## Description\n\n\n\n## Notes\n\n\n\n## History\n- " ++
          (dt ++ cl ": Task created\n")))))))))))) := by
    simp only [List.append_assoc]
    rfl
  have h1 : '\n' ∉ cl "id: " ++ id := not_mem_append (by decide) hidnl
  have h2 : '\n' ∉ cl "title: \"" ++ (title ++ cl "\"") :=
    not_mem_append (by decide) (not_mem_append ht2 (by decide))
  have h3 : '\n' ∉ cl "priority: " ++ priority := not_mem_append (by decide) hpnl
  have h4 : '\n' ∉ cl "tags: " ++ tagsStrOf tags := not_mem_append (by decide) htgS_nl
  have h5 : '\n' ∉ cl "assigned: " ++ assigned := not_mem_append (by decide) hanl
  have hfind := findFmEnd_five (cl "id: " ++ id) (cl "title: \"" ++ (title ++ cl "\""))
    (cl "priority: " ++ priority) (cl "tags: " ++ tagsStrOf tags)
    (cl "assigned: " ++ assigned)
    (cl "## Description\n\n\n\n## Notes\n\n\n\n## History\n- " ++ (dt ++ cl ": Task created\n"))
    h1 h2 h3 h4 h5 't' 'p' 't' 'a' rfl (by decide) rfl (by decide) rfl (by decide)
    rfl (by decide)
    (nonws_head_of _ '#' rfl (by decide))
  have hentry := parseFrontmatter_entry _
    (by exact nonws_head_of _ 'i' rfl (by decide)) _ _ hfind
  have hsplit : splitOnChar '\n' ((cl "id: " ++ id) ++ ('\n' ::
      ((cl "title: \"" ++ (title ++ cl "\"")) ++ ('\n' :: ((cl "priority: " ++ priority) ++
      ('\n' :: ((cl "tags: " ++ tagsStrOf tags) ++ ('\n' ::
      (cl "assigned: " ++ assigned))))))))) =
      [cl "id: " ++ id, cl "title: \"" ++ (title ++ cl "\""), cl "priority: " ++ priority,
        cl "tags: " ++ tagsStrOf tags, cl "assigned: " ++ assigned] := by
    rw [splitOnChar_cons_line _ _ h1, splitOnChar_cons_line _ _ h2,
      splitOnChar_cons_line _ _ h3, splitOnChar_cons_line _ _ h4,
      splitOnChar_no_sep '\n' _ h5]
  have m1 : matchField (cl "id: " ++ id) = some (cl "id", id) :=
    matchField_clean (cl "id") id (by decide) (by decide) hid1 hidh hidl
  have m2 : matchField (cl "title: \"" ++ (title ++ cl "\"")) =
      some (cl "title", '"' :: (title ++ cl "\"")) :=
    matchField_clean (cl "title") ('"' :: (title ++ cl "\"")) (by decide) (by decide)
      (List.cons_ne_nil _ _) (nonws_head_of _ '"' rfl (by decide))
      (nonws_last_of_suffix ('"' :: title) (cl "\"") '"' (by decide) rfl (by decide))
  have m3 : matchField (cl "priority: " ++ priority) = some (cl "priority", priority) :=
    matchField_clean (cl "priority") priority (by decide) (by decide) hp1
      (fun c hc => (hph c hc).1) hpl
  have m4 : matchField (cl "tags: " ++ tagsStrOf tags) = some (cl "tags", tagsStrOf tags) :=
    matchField_clean (cl "tags") (tagsStrOf tags) (by decide) (by decide) htgSne htgSh htgSl
  have pv1 : parseValue id = .str id := parseValue_plain id (fun c hc => by
    have hw := hid2 c (mem_of_head id c hc)
    refine ⟨?_, ?_, ?_⟩ <;> (intro he; subst he; exact absurd hw (by decide)))
  have pv2 : parseValue ('"' :: (title ++ cl "\"")) = .str title := parseValue_quoted title ht1
  have pv3 : parseValue priority = .str priority :=
    parseValue_plain priority (fun c hc => ⟨(hph c hc).2.1, (hph c hc).2.2.1, (hph c hc).2.2.2⟩)
  by_cases hae : assigned = []
  · subst hae
    have m5 : matchField (cl "assigned: " ++ ([] : Str)) = none := by decide
    have hfml : parseFmLines ((cl "id: " ++ id) ++ ('\n' ::
        ((cl "title: \"" ++ (title ++ cl "\"")) ++ ('\n' :: ((cl "priority: " ++ priority) ++
        ('\n' :: ((cl "tags: " ++ tagsStrOf tags) ++ ('\n' ::
        (cl "assigned: " ++ ([] : Str)))))))))) =
        [(cl "id", .str id), (cl "title", .str title), (cl "priority", .str priority),
          (cl "tags", .list tags)] := by
      unfold parseFmLines
      rw [hsplit]
      simp only [List.foldl_cons, List.foldl_nil, m1, m2, m3, m4, m5, pv1, pv2, pv3,
        hpv_tags]
      rfl
    rw [hfml] at hentry
    refine ⟨[(cl "id", .str id), (cl "title", .str title), (cl "priority", .str priority),
      (cl "tags", .list tags)],
      cl "## Description\n\n\n\n## Notes\n\n\n\n## History\n- " ++
        (dt ++ cl ": Task created\n"),
      by rw [henc, hcast]; exact hentry, rfl, rfl, rfl, rfl, rfl⟩
  · rcases hass with rfl | ⟨ha1, _, _, hah, hal⟩
    · exact absurd rfl hae
    have m5 : matchField (cl "assigned: " ++ assigned) = some (cl "assigned", assigned) :=
      matchField_clean (cl "assigned") assigned (by decide) (by decide) hae
        (fun c hc => (hah c hc).1) hal
    have pv5 : parseValue assigned = .str assigned :=
      parseValue_plain assigned
        (fun c hc => ⟨(hah c hc).2.1, (hah c hc).2.2.1, (hah c hc).2.2.2⟩)
    have hfml : parseFmLines ((cl "id: " ++ id) ++ ('\n' ::
        ((cl "title: \"" ++ (title ++ cl "\"")) ++ ('\n' :: ((cl "priority: " ++ priority) ++
        ('\n' :: ((cl "tags: " ++ tagsStrOf tags) ++ ('\n' ::
        (cl "assigned: " ++ assigned))))))))) =
        [(cl "id", .str id), (cl "title", .str title), (cl "priority", .str priority),
          (cl "tags", .list tags), (cl "assigned", .str assigned)] := by
      unfold parseFmLines
      rw [hsplit]
      simp only [List.foldl_cons, List.foldl_nil, m1, m2, m3, m4, m5, pv1, pv2, pv3,
        hpv_tags, pv5]
      rfl
    rw [hfml] at hentry
    refine ⟨[(cl "id", .str id), (cl "title", .str title), (cl "priority", .str priority),
      (cl "tags", .list tags), (cl "assigned", .str assigned)],
      cl "## Description\n\n\n\n## Notes\n\n\n\n## History\n- " ++
        (dt ++ cl ": Task created\n"),
      by rw [henc, hcast]; exact hentry, rfl, rfl, rfl, rfl, ?_⟩
    show jsOrDefault (some (.str assigned)) (.str []) = .str assigned
    have htr : (FMValue.str assigned).truthy = true := decide_eq_true hae
    simp [jsOrDefault, htr]

/-- C2 (counterexample to the unconditional claim): the template placeholders are
filled by first-occurrence string replacement, so a title containing the literal
text `{priority}` hijacks the later priority substitution: the title line receives
the priority value and the priority line keeps the literal placeholder.  Decoding
the encoded record returns title `set high correctly` and priority `{priority}`
instead of the original title and `high`. -/
theorem create_decode_counterexample :
    (parseFrontmatter (encodeTask (cl "abc1234") (cl "set {priority} correctly") (cl "high")
      [] [] (cl "D") [] [])).map
        (fun r => (aLookup r.1 (cl "title"), aLookup r.1 (cl "priority"))) =
      some (some (.str (cl "set high correctly")), some (.str (cl "{priority}"))) := by
  decide

theorem encode_parseFrontmatter_roundtrip_witness :
    ∃ fm body,
      parseFrontmatter (encodeTask (cl "abc1234") (cl "Fix parser") (cl "high")
        [cl "bug", cl "ui"] (cl "alice") (cl "2026-01-01 00:00") [] []) =
        some (fm, body) ∧
      aLookup fm (cl "id") = some (.str (cl "abc1234")) ∧
      aLookup fm (cl "title") = some (.str (cl "Fix parser")) ∧
      aLookup fm (cl "priority") = some (.str (cl "high")) ∧
      aLookup fm (cl "tags") = some (.list [cl "bug", cl "ui"]) ∧
      jsOrDefault (aLookup fm (cl "assigned")) (.str []) = .str (cl "alice") :=
  encode_parseFrontmatter_roundtrip (cl "abc1234") (cl "Fix parser") (cl "high")
    [cl "bug", cl "ui"] (cl "alice") (cl "2026-01-01 00:00")
    (by decide) (by decide) (by decide) (by decide) (by decide) (by decide)
    (by decide) (by decide) (by decide)
    (by
      intro c hc
      rw [show (cl "high").head? = some 'h' from rfl] at hc
      rw [← Option.some.inj hc]
      decide)
    (by
      intro c hc
      rw [show (cl "high").getLast? = some 'h' from by decide] at hc
      rw [← Option.some.inj hc]
      decide)
    (by decide) (by decide)
    (Or.inr ⟨by decide, by decide, by decide,
      by
        intro c hc
        rw [show (cl "alice").head? = some 'a' from rfl] at hc
        rw [← Option.some.inj hc]
        decide,
      by
        intro c hc
        rw [show (cl "alice").getLast? = some 'e' from by decide] at hc
        rw [← Option.some.inj hc]
        decide⟩)
    (by decide)


/-! ## Claim C1: operations followed by a full reconciliation -/
theorem base36Char_word (d : Fin 36) : isWordChar (base36Char d) := by
  have hm : base36Char d ∈ base36Chars := by
    unfold base36Char
    exact List.get_mem _ _ _
  exact (by decide : ∀ x ∈ base36Chars, isWordChar x) _ hm

theorem toBase36Aux_word (fuel n : Nat) : ∀ x ∈ toBase36Aux n fuel, isWordChar x := by
  induction fuel generalizing n with
  | zero => simp [toBase36Aux]
  | succ f ih =>
    intro x hx
    unfold toBase36Aux at hx
    split at hx
    · rw [List.mem_singleton] at hx
      rw [hx]
      exact base36Char_word _
    · rcases List.mem_append.mp hx with h1 | h1
      · exact ih _ x h1
      · rw [List.mem_singleton] at h1
        rw [h1]
        exact base36Char_word _

theorem timestampComponent_word (s : Nat) : ∀ x ∈ timestampComponent s, isWordChar x := by
  intro x hx
  unfold timestampComponent padStart at hx
  rcases List.mem_append.mp hx with h1 | h1
  · rw [List.eq_of_mem_replicate h1]
    decide
  · exact toBase36Aux_word _ _ x h1

theorem taskIdCandidate_word (r : Fin 36 × Fin 36 × Fin 36) (s : Nat) :
    ∀ x ∈ taskIdCandidate r s, isWordChar x := by
  intro x hx
  unfold taskIdCandidate at hx
  rcases List.mem_append.mp hx with h1 | h1
  · simp only [List.mem_cons, List.not_mem_nil, or_false] at h1
    rcases h1 with rfl | rfl | rfl <;> exact base36Char_word _
  · exact timestampComponent_word _ x h1

theorem taskIdCandidate_ne_nil (r : Fin 36 × Fin 36 × Fin 36) (s : Nat) :
    taskIdCandidate r s ≠ [] := by
  unfold taskIdCandidate
  simp

theorem generateTaskIdAux_word (tasks : List (Str × TaskEntry))
    (rands : Nat → Fin 36 × Fin 36 × Fin 36) (s : Nat) (fuel : Nat) (id : Str)
    (h : generateTaskIdAux tasks rands s fuel = some id) :
    id ≠ [] ∧ ∀ x ∈ id, isWordChar x := by
  induction fuel with
  | zero => exact absurd h (by simp [generateTaskIdAux])
  | succ f ih =>
    simp only [generateTaskIdAux] at h
    split at h
    · rw [← Option.some.inj h]
      exact ⟨taskIdCandidate_ne_nil _ _, taskIdCandidate_word _ _⟩
    · exact ih h

theorem generateTaskId_word (tasks : List (Str × TaskEntry))
    (rands : Nat → Fin 36 × Fin 36 × Fin 36) (s : Nat) (id : Str)
    (h : generateTaskId tasks rands s = some id) :
    id ≠ [] ∧ ∀ x ∈ id, isWordChar x :=
  generateTaskIdAux_word tasks rands s 100 id h

theorem aLookup_mem {α : Type _} (l : List (Str × α)) (k : Str) (v : α)
    (h : aLookup l k = some v) : (k, v) ∈ l := by
  induction l with
  | nil => exact absurd h (by simp [aLookup])
  | cons p rest ih =>
    obtain ⟨k0, v0⟩ := p
    unfold aLookup at h
    split at h
    · next heq =>
      rw [← heq, ← Option.some.inj h]
      exact List.mem_cons_self _ _
    · exact List.mem_cons_of_mem _ (ih h)

theorem setKey_mem {α : Type _} (l : List (Str × α)) (k : Str) (v : α) (p : Str × α)
    (h : p ∈ setKey l k v) : p = (k, v) ∨ p ∈ l := by
  induction l with
  | nil =>
    rw [show setKey ([] : List (Str × α)) k v = [(k, v)] from rfl] at h
    exact Or.inl (List.mem_singleton.mp h)
  | cons q rest ih =>
    obtain ⟨k0, v0⟩ := q
    unfold setKey at h
    split at h
    · rcases List.mem_cons.mp h with he | hm
      · exact Or.inl he
      · exact Or.inr (List.mem_cons_of_mem _ hm)
    · rcases List.mem_cons.mp h with he | hm
      · exact Or.inr (he ▸ List.mem_cons_self _ _)
      · rcases ih hm with he | hm2
        · exact Or.inl he
        · exact Or.inr (List.mem_cons_of_mem _ hm2)

theorem putFile_mem (d : List TaskFile) (f' g : TaskFile) (hg : g ∈ putFile d f') :
    g = f' ∨ g ∈ d := by
  unfold putFile at hg
  split at hg
  · rcases List.mem_map.mp hg with ⟨x, hx, hgx⟩
    by_cases hxf : x.filename = f'.filename
    · rw [if_pos hxf] at hgx
      exact Or.inl hgx.symm
    · rw [if_neg hxf] at hgx
      exact Or.inr (hgx ▸ hx)
  · rcases List.mem_append.mp hg with h | h
    · exact Or.inr h
    · exact Or.inl (List.mem_singleton.mp h)

theorem findSome?_exists {α β : Type _} (g : α → Option β) (l : List α) (b : β)
    (h : l.findSome? g = some b) : ∃ a ∈ l, g a = some b := by
  induction l with
  | nil => exact absurd h (by simp)
  | cons x rest ih =>
    rw [List.findSome?_cons] at h
    cases hx : g x with
    | some v =>
      rw [hx] at h
      exact ⟨x, List.mem_cons_self _ _, by rw [hx, Option.some.inj h]⟩
    | none =>
      rw [hx] at h
      obtain ⟨a, ha, hg⟩ := ih h
      exact ⟨a, List.mem_cons_of_mem _ ha, hg⟩

theorem fsLookupPath_mem (fs : FileSys) (p : Str) (f : TaskFile)
    (h : fsLookupPath fs p = some f) : ∃ cd ∈ fs.dirs, f ∈ cd.2 := by
  unfold fsLookupPath at h
  obtain ⟨cd, hcd, hf⟩ := findSome?_exists _ _ _ h
  exact ⟨cd, hcd, List.mem_of_find?_eq_some hf⟩

theorem filterMap_all_length {α β : Type _} (g : α → Option β) (l : List α)
    (h : ∀ x ∈ l, (g x).isSome) : (l.filterMap g).length = l.length := by
  induction l with
  | nil => rfl
  | cons x rest ih =>
    rw [List.filterMap_cons]
    cases hx : g x with
    | none =>
      have := h x (List.mem_cons_self x rest)
      rw [hx] at this
      exact absurd this (by simp)
    | some b =>
      rw [List.length_cons, List.length_cons,
        ih (fun y hy => h y (List.mem_cons_of_mem x hy))]

theorem lastVal_mem {α : Type _} (l : List (Str × α)) (k : Str) (v : α)
    (h : lastVal l k = some v) : (k, v) ∈ l := by
  induction l with
  | nil => exact absurd h (by simp [lastVal])
  | cons q rest ih =>
    obtain ⟨k0, v0⟩ := q
    unfold lastVal at h
    split at h
    · next v' heq =>
      have hv := Option.some.inj h
      subst hv
      exact List.mem_cons_of_mem _ (ih heq)
    · split at h
      · next heq2 =>
        rw [← heq2, ← Option.some.inj h]
        exact List.mem_cons_self _ _
      · exact absurd h (by simp)

theorem decodeFile_status (colId : Str) (f : TaskFile) (id : Str) (e : TaskEntry)
    (h : decodeFile colId f = some (id, e)) : e.status = colId := by
  unfold decodeFile at h
  split at h
  · exact absurd h (by simp)
  · split at h
    · split at h
      · have h2 := (Prod.mk.inj (Option.some.inj h)).2
        rw [← h2]
        rfl
      · exact absurd h (by simp)
    · exact absurd h (by simp)

theorem trimEnd_append (A B : Str) (hA : ∀ c, A.getLast? = some c → ¬ jsIsSpace c) :
    trimEnd (A ++ B) = A ++ trimEnd B := by
  unfold trimEnd
  rw [List.reverse_append, List.dropWhile_append]
  split
  · next h =>
    have hb : B.reverse.dropWhile jsIsSpace = [] := List.isEmpty_iff.mp h
    have ha := trimEnd_of_last A hA
    unfold trimEnd at ha
    rw [ha, hb]
    simp
  · simp

theorem matchField_key (K V : Str) (hK1 : K ≠ []) (hK : ∀ x ∈ K, isWordChar x) :
    matchField (K ++ (cl ": " ++ V)) = none ∨
    ∃ v, matchField (K ++ (cl ": " ++ V)) = some (K, v) := by
  obtain ⟨k0, K', rfl⟩ : ∃ k0 K', K = k0 :: K' := by
    cases K with
    | nil => exact absurd rfl hK1
    | cons a b => exact ⟨a, b, rfl⟩
  have hk0 : ¬ jsIsSpace k0 := wordchar_not_ws k0 (hK k0 (List.mem_cons_self _ _))
  have hKl : ∀ c, ((k0 :: K') ++ [':']).getLast? = some c → ¬ jsIsSpace c :=
    nonws_last_of_suffix (k0 :: K') [':'] ':' (by decide) rfl (by decide)
  have ht : jsTrim ((k0 :: K') ++ (cl ": " ++ V)) =
      (k0 :: K') ++ (':' :: trimEnd (' ' :: V)) := by
    unfold jsTrim
    have hdK : (k0 :: K').dropWhile jsIsSpace = k0 :: K' := List.dropWhile_cons_of_neg hk0
    rw [List.dropWhile_append, hdK]
    rw [if_neg (by simp)]
    rw [show (k0 :: K') ++ (cl ": " ++ V) = ((k0 :: K') ++ [':']) ++ (' ' :: V) from by
      simp only [List.append_assoc]
      rfl]
    rw [trimEnd_append ((k0 :: K') ++ [':']) (' ' :: V) hKl]
    simp [List.append_assoc]
  have hkey : ((k0 :: K') ++ (':' :: trimEnd (' ' :: V))).takeWhile isWordChar = k0 :: K' :=
    takeWhile_append_neg _ _ ':' _ hK (by decide)
  have hmf : matchField ((k0 :: K') ++ (cl ": " ++ V)) =
      (if (trimEnd (' ' :: V)).dropWhile jsIsSpace = [] then none
       else some (k0 :: K', jsTrim ((trimEnd (' ' :: V)).dropWhile jsIsSpace))) := by
    simp only [matchField, ht, hkey]
    rw [List.drop_left]
    show (if (k0 :: K') = [] then none
          else if (trimEnd (' ' :: V)).dropWhile jsIsSpace = [] then none
          else some (k0 :: K', jsTrim ((trimEnd (' ' :: V)).dropWhile jsIsSpace))) = _
    rw [if_neg (List.cons_ne_nil k0 K')]
  by_cases hv : (trimEnd (' ' :: V)).dropWhile jsIsSpace = []
  · left
    rw [hmf, if_pos hv]
  · right
    exact ⟨_, by rw [hmf, if_neg hv]⟩

/-- The structural shape of every task-file content reachable through the
embedded operations: the five-line frontmatter written by `create` (with a
nonempty word-character id and single-line values) above an arbitrary body
that does not start with whitespace.  `move` only appends history lines to
the body. -/
def GoodContent (content : Str) : Prop :=
  ∃ (id title priority tagsS assigned body : Str),
    content = cl "---\nid: " ++ (id ++ (cl "\ntitle: \"" ++ (title ++ (cl "\"\npriority: " ++
      (priority ++ (cl "\ntags: " ++ (tagsS ++ (cl "\nassigned: " ++
      (assigned ++ (cl "\n---\n\n" ++ body)))))))))) ∧
    id ≠ [] ∧ (∀ x ∈ id, isWordChar x) ∧
    '\n' ∉ title ∧ '\n' ∉ priority ∧ '\n' ∉ tagsS ∧ '\n' ∉ assigned ∧
    (∀ c, body.head? = some c → ¬ jsIsSpace c)

theorem fold_preserves_id (parsed : List (Str × FMValue)) (line K V : Str)
    (hline : line = K ++ (cl ": " ++ V)) (hK1 : K ≠ []) (hK : ∀ x ∈ K, isWordChar x)
    (hKid : K ≠ cl "id") :
    aLookup (match matchField line with
             | some (k, v) => setKey parsed k (parseValue v)
             | none => parsed) (cl "id") = aLookup parsed (cl "id") := by
  subst hline
  rcases matchField_key K V hK1 hK with hm | ⟨v, hm⟩
  · rw [hm]
  · rw [hm]
    exact aLookup_setKey_other parsed K (cl "id") _ hKid

theorem decodeFile_of_good (colId : Str) (f : TaskFile) (h : GoodContent f.content) :
    ∃ id e, decodeFile colId f = some (id, e) := by
  obtain ⟨id, title, priority, tagsS, assigned, body, hc, hid1, hid2, ht, hp, htg, ha, hb⟩ := h
  have hidh : ∀ c, id.head? = some c → ¬ jsIsSpace c :=
    fun c hc2 => wordchar_not_ws c (hid2 c (mem_of_head id c hc2))
  have hidl : ∀ c, id.getLast? = some c → ¬ jsIsSpace c :=
    fun c hc2 => wordchar_not_ws c (hid2 c (List.mem_of_mem_getLast? hc2))
  have hidnl : '\n' ∉ id := fun hm => absurd (hid2 '\n' hm) (by decide)
  have h1 : '\n' ∉ cl "id: " ++ id := not_mem_append (by decide) hidnl
  have h2 : '\n' ∉ cl "title: \"" ++ (title ++ cl "\"") :=
    not_mem_append (by decide) (not_mem_append ht (by decide))
  have h3 : '\n' ∉ cl "priority: " ++ priority := not_mem_append (by decide) hp
  have h4 : '\n' ∉ cl "tags: " ++ tagsS := not_mem_append (by decide) htg
  have h5 : '\n' ∉ cl "assigned: " ++ assigned := not_mem_append (by decide) ha
  have hcast : cl "---\nid: " ++ (id ++ (cl "\ntitle: \"" ++ (title ++ (cl "\"\npriority: " ++
      (priority ++ (cl "\ntags: " ++ (tagsS ++ (cl "\nassigned: " ++
      (assigned ++ (cl "\n---\n\n" ++ body)))))))))) =
      cl "---\n" ++ ((cl "id: " ++ id) ++ ('\n' :: ((cl "title: \"" ++ (title ++ cl "\"")) ++
        ('\n' :: ((cl "priority: " ++ priority) ++ ('\n' :: ((cl "tags: " ++ tagsS) ++
        ('\n' :: ((cl "assigned: " ++ assigned) ++ (cl "\n---\n\n" ++ body)))))))))) := by
    simp only [List.append_assoc]
    rfl
  have hfind := findFmEnd_five (cl "id: " ++ id) (cl "title: \"" ++ (title ++ cl "\""))
    (cl "priority: " ++ priority) (cl "tags: " ++ tagsS) (cl "assigned: " ++ assigned)
    body h1 h2 h3 h4 h5 't' 'p' 't' 'a' rfl (by decide) rfl (by decide) rfl (by decide)
    rfl (by decide) hb
  have hentry := parseFrontmatter_entry _
    (by exact nonws_head_of _ 'i' rfl (by decide)) _ _ hfind
  have hsplit : splitOnChar '\n' ((cl "id: " ++ id) ++ ('\n' ::
      ((cl "title: \"" ++ (title ++ cl "\"")) ++ ('\n' :: ((cl "priority: " ++ priority) ++
      ('\n' :: ((cl "tags: " ++ tagsS) ++ ('\n' ::
      (cl "assigned: " ++ assigned))))))))) =
      [cl "id: " ++ id, cl "title: \"" ++ (title ++ cl "\""), cl "priority: " ++ priority,
        cl "tags: " ++ tagsS, cl "assigned: " ++ assigned] := by
    rw [splitOnChar_cons_line _ _ h1, splitOnChar_cons_line _ _ h2,
      splitOnChar_cons_line _ _ h3, splitOnChar_cons_line _ _ h4,
      splitOnChar_no_sep '\n' _ h5]
  have m1 : matchField (cl "id: " ++ id) = some (cl "id", id) :=
    matchField_clean (cl "id") id (by decide) (by decide) hid1 hidh hidl
  have pv1 : parseValue id = .str id := parseValue_plain id (fun c hc2 => by
    have hw := hid2 c (mem_of_head id c hc2)
    refine ⟨?_, ?_, ?_⟩ <;> (intro he; subst he; exact absurd hw (by decide)))
  have hlook : aLookup (parseFmLines ((cl "id: " ++ id) ++ ('\n' ::
      ((cl "title: \"" ++ (title ++ cl "\"")) ++ ('\n' :: ((cl "priority: " ++ priority) ++
      ('\n' :: ((cl "tags: " ++ tagsS) ++ ('\n' ::
      (cl "assigned: " ++ assigned)))))))))) (cl "id") = some (.str id) := by
    unfold parseFmLines
    rw [hsplit]
    simp only [List.foldl_cons, List.foldl_nil, m1, pv1]
    rw [fold_preserves_id _ _ (cl "assigned") assigned
      (show cl "assigned: " ++ assigned = cl "assigned" ++ (cl ": " ++ assigned) from rfl)
      (by decide) (by decide) (by decide)]
    rw [fold_preserves_id _ _ (cl "tags") tagsS
      (show cl "tags: " ++ tagsS = cl "tags" ++ (cl ": " ++ tagsS) from rfl)
      (by decide) (by decide) (by decide)]
    rw [fold_preserves_id _ _ (cl "priority") priority
      (show cl "priority: " ++ priority = cl "priority" ++ (cl ": " ++ priority) from rfl)
      (by decide) (by decide) (by decide)]
    rw [fold_preserves_id _ _ (cl "title") ('"' :: (title ++ cl "\""))
      (show cl "title: \"" ++ (title ++ cl "\"") =
        cl "title" ++ (cl ": " ++ ('"' :: (title ++ cl "\""))) from rfl)
      (by decide) (by decide) (by decide)]
    rfl
  refine ⟨fmKeyStr (.str id), mkEntry colId f (parseFmLines ((cl "id: " ++ id) ++ ('\n' ::
    ((cl "title: \"" ++ (title ++ cl "\"")) ++ ('\n' :: ((cl "priority: " ++ priority) ++
    ('\n' :: ((cl "tags: " ++ tagsS) ++ ('\n' ::
    (cl "assigned: " ++ assigned)))))))))), ?_⟩
  unfold decodeFile
  rw [hc, hcast, hentry]
  have htr : (FMValue.str id).truthy = true := decide_eq_true hid1
  simp only [hlook, htr, if_true]

/-- Every directory of the board holds only structurally well-formed task
files. -/
def GoodFs (fs : FileSys) : Prop :=
  ∀ cd ∈ fs.dirs, ∀ f ∈ cd.2, GoodContent f.content

theorem goodFs_fsRemovePath (fs : FileSys) (p : Str) (h : GoodFs fs) :
    GoodFs (fsRemovePath fs p) := by
  intro cd hcd f hf
  unfold fsRemovePath at hcd
  rcases List.mem_map.mp hcd with ⟨cd0, hcd0, rfl⟩
  exact h cd0 hcd0 f (List.mem_of_mem_filter hf)

theorem goodFs_addFile (fs : FileSys) (colId : Str) (f' : TaskFile) (h : GoodFs fs)
    (hf' : GoodContent f'.content) : GoodFs (addFile fs colId f') := by
  intro cd hcd g hg
  unfold addFile at hcd
  split at hcd
  · next d0 heq =>
    rcases setKey_mem _ _ _ _ hcd with he | hm
    · subst he
      rcases putFile_mem d0 f' g hg with he2 | hm2
      · rw [he2]
        exact hf'
      · exact h (colId, d0) (aLookup_mem _ _ _ heq) g hm2
    · exact h cd hm g hg
  · rcases List.mem_append.mp hcd with hm | hm
    · exact h cd hm g hg
    · rw [List.mem_singleton.mp hm] at hg
      rw [List.mem_singleton.mp hg]
      exact hf'

theorem goodContent_append (content extra : Str) (h : GoodContent content)
    (hx : ∀ c, extra.head? = some c → ¬ jsIsSpace c) :
    GoodContent (content ++ extra) := by
  obtain ⟨id, title, priority, tagsS, assigned, body, hc, hid1, hid2, ht, hp, htg, ha, hb⟩ := h
  refine ⟨id, title, priority, tagsS, assigned, body ++ extra, ?_, hid1, hid2, ht, hp,
    htg, ha, ?_⟩
  · rw [hc]
    simp only [List.append_assoc]
  · intro c hc2
    cases body with
    | nil => exact hx c (by simpa using hc2)
    | cons b0 bs => exact hb c hc2

theorem encodeTask_good (id title priority : Str) (tags : List Str) (assigned dt : Str)
    (hid1 : id ≠ []) (hid2 : ∀ x ∈ id, isWordChar x)
    (ht : NiceStr title) (hp : NiceStr priority) (htags : ∀ t ∈ tags, NiceStr t)
    (ha : NiceStr assigned) (hdt : NiceStr dt) :
    GoodContent (encodeTask id title priority tags assigned dt [] []) := by
  have htgS_brace : '{' ∉ tagsStrOf tags :=
    tagsStrOf_not_mem '{' tags (by decide) (by decide) (by decide)
      (fun tg h => (htags tg h).2.1)
  have htgS_dollar : '$' ∉ tagsStrOf tags :=
    tagsStrOf_not_mem '$' tags (by decide) (by decide) (by decide)
      (fun tg h => (htags tg h).2.2)
  have htgS_nl : '\n' ∉ tagsStrOf tags :=
    tagsStrOf_not_mem '\n' tags (by decide) (by decide) (by decide)
      (fun tg h => (htags tg h).1)
  refine ⟨id, title, priority, tagsStrOf tags, assigned,
    cl "## Description\n\n\n\n## Notes\n\n\n\n## History\n- " ++ (dt ++ cl ": Task created\n"),
    ?_, hid1, hid2, ht.1, hp.1, htgS_nl, ha.1, nonws_head_of _ '#' rfl (by decide)⟩
  rw [encodeTask_explicit id title priority tags assigned dt hid2 ht.2.1 ht.2.2 hp.2.1
    hp.2.2 htgS_brace htgS_dollar ha.2.1 ha.2.2 hdt.2.2]
  rfl

theorem createOp_goodFs (cfg : Config) (st : BoardState) (title col priority : Str)
    (tags : List Str) (assigned : Str) (rands : Nat → Fin 36 × Fin 36 × Fin 36)
    (secs : Nat) (dt : Str) (now : Nat) (h : GoodFs st.fs)
    (htitle : NiceStr title) (htags : ∀ t ∈ tags, NiceStr t) (hassigned : NiceStr assigned)
    (hdt : NiceStr dt) (hprios : ∀ p ∈ cfg.priorities, NiceStr p) :
    GoodFs (createOp cfg st title col priority tags assigned [] [] rands secs dt now).1.fs := by
  simp only [createOp]
  split
  · exact h
  split
  · exact h
  split
  next hprio => exact h
  next hprio =>
    split
    · exact h
    next taskId heq =>
      refine goodFs_addFile _ _ _ h ?_
      obtain ⟨hid1, hid2⟩ := generateTaskId_word _ _ _ _ heq
      exact encodeTask_good taskId title priority tags assigned dt hid1 hid2 htitle
        (hprios priority (not_not.mp hprio)) htags hassigned hdt

theorem moveOp_goodFs (cfg : Config) (st : BoardState) (taskIdArg targetColumn dtHist : Str)
    (now : Nat) (h : GoodFs st.fs) :
    GoodFs (moveOp cfg st taskIdArg targetColumn dtHist now).1.fs := by
  simp only [moveOp]
  split
  · exact h
  split
  · exact h
  split
  · exact h
  split
  · exact h
  next task heqt =>
    split
    · exact h
    split
    · exact h
    next f heq =>
      obtain ⟨cd, hcd, hfmem⟩ := fsLookupPath_mem st.fs task.file f heq
      have hgood : GoodContent f.content := h cd hcd f hfmem
      refine goodFs_addFile _ _ _
        (goodFs_addFile _ _ _ (goodFs_fsRemovePath _ _ h) hgood) ?_
      exact goodContent_append _ _ hgood (nonws_head_of _ '-' rfl (by decide))

theorem deleteOp_goodFs (st : BoardState) (taskIdArg : Str) (now : Nat)
    (h : GoodFs st.fs) : GoodFs (deleteOp st taskIdArg now).1.fs := by
  simp only [deleteOp]
  split
  · exact h
  split
  · exact h
  split
  · exact goodFs_fsRemovePath _ _ h
  · exact h

theorem reach_goodFs (cfg : Config) (st : BoardState) (h : Reach cfg st) :
    GoodFs st.fs := by
  induction h with
  | init now =>
    intro cd hcd f hf
    rcases List.mem_map.mp hcd with ⟨col, _, rfl⟩
    exact absurd hf (List.not_mem_nil f)
  | create title col priority tags assigned rands secs dt now hst ht htags ha hdt hp ih =>
    exact createOp_goodFs _ _ _ _ _ _ _ _ _ _ _ ih ht htags ha hdt hp
  | move taskIdArg targetColumn dtHist now hst hdt hcols ih =>
    exact moveOp_goodFs _ _ _ _ _ _ ih
  | delete taskIdArg now hst ih =>
    exact deleteOp_goodFs _ _ _ ih

theorem colDecoded_length_of_good (fs : FileSys) (col : Column) (hg : GoodFs fs) :
    (colDecoded fs col).length =
      (match dirFiles fs col.id with
       | none => 0
       | some d => (mdFiles d).length) := by
  unfold colDecoded
  cases hd : dirFiles fs col.id with
  | none => rfl
  | some d =>
    refine filterMap_all_length _ _ ?_
    intro f hf
    obtain ⟨id, e, he⟩ := decodeFile_of_good col.id f
      (hg (col.id, d) (aLookup_mem _ _ _ hd) f (List.mem_of_mem_filter hf))
    rw [he]
    rfl

theorem decodedPairs_length_of_good (cfg : Config) (fs : FileSys) (hg : GoodFs fs) :
    (decodedPairs cfg fs).length = totalMdFiles cfg fs := by
  unfold decodedPairs decodedOf totalMdFiles
  rw [List.length_flatten, List.map_map]
  congr 1
  apply List.map_congr_left
  intro col _
  exact colDecoded_length_of_good fs col hg

/-- C1 (corrected, positive half): for every board reachable by create/move/delete
operations with single-line metacharacter-free arguments (`Reach`), a full rebuild
(`rebuildIndex`, and the `sync` command's identical scan) yields an index whose
per-column counts sum to exactly the number of `.md` task files on disk, and whose
every cache entry decodes from a file physically residing in the directory of its
own `status` column.  Duplicate column ids are excluded: the scan would count one
shared directory once per occurrence. -/
theorem reach_rebuild_consistent (cfg : Config) (st : BoardState) (h : Reach cfg st)
    (hnodup : (cfg.columns.map Column.id).Nodup) (t : Nat) :
    sumColumnCounts cfg (rebuildIndex cfg st.fs t) =
      some ((totalMdFiles cfg st.fs : Int)) ∧
    ∀ id e, aLookup (rebuildIndex cfg st.fs t).tasks id = some e →
      ∃ col ∈ cfg.columns, e.status = col.id ∧ ∃ d, dirFiles st.fs col.id = some d ∧
        ∃ f ∈ mdFiles d, decodeFile col.id f = some (id, e) := by
  have hg := reach_goodFs cfg st h
  constructor
  · rw [rebuild_sum cfg st.fs t hnodup, decodedPairs_length_of_good cfg st.fs hg]
  · intro id e hl
    rw [rebuildIndex_tasks, aLookup_insertAll] at hl
    have hlv : lastVal (decodedPairs cfg st.fs) id = some e := by
      cases hv : lastVal (decodedPairs cfg st.fs) id with
      | some v =>
        rw [hv] at hl
        have hve : v = e := Option.some.inj hl
        rw [hve]
      | none =>
        rw [hv] at hl
        exact absurd hl (by simp [aLookup])
    have hmem := lastVal_mem _ _ _ hlv
    unfold decodedPairs decodedOf at hmem
    rcases List.mem_flatten.mp hmem with ⟨l, hlmem, hpl⟩
    rcases List.mem_map.mp hlmem with ⟨col, hcolmem, rfl⟩
    unfold colDecoded at hpl
    cases hdd : dirFiles st.fs col.id with
    | none =>
      rw [hdd] at hpl
      exact absurd hpl (List.not_mem_nil _)
    | some d =>
      rw [hdd] at hpl
      rcases List.mem_filterMap.mp hpl with ⟨f, hfmem, hdf⟩
      exact ⟨col, hcolmem, decodeFile_status col.id f id e hdf, d, hdd, f, hfmem, hdf⟩

def c1cfg : Config := ⟨cl "B", [⟨cl "todo", cl "To Do"⟩], [cl "low"], none⟩

def c1rands : Nat → Fin 36 × Fin 36 × Fin 36 :=
  fun _ => (⟨10, by decide⟩, ⟨11, by decide⟩, ⟨12, by decide⟩)

def c1evil : BoardState :=
  (createOp c1cfg (initBoard c1cfg 0) (cl "z\nid: \"\"\nx") (cl "todo") (cl "low")
    [] [] [] [] c1rands 0 (cl "D") 0).1

/-- C1 (counterexample to the unconditional claim): a create whose title embeds the
two newlines of `z\nid: ""\nx` succeeds (returning id `abc0000`) but splices an
`id: ""` line into the stored frontmatter; the reconciliation scan then drops the
file (falsy id), so the rebuilt counts sum to 0 while one task file is on disk. -/
theorem reconciliation_counterexample :
    (createOp c1cfg (initBoard c1cfg 0) (cl "z\nid: \"\"\nx") (cl "todo") (cl "low")
      [] [] [] [] c1rands 0 (cl "D") 0).2.2 = .ok (cl "abc0000") ∧
    sumColumnCounts c1cfg (rebuildIndex c1cfg c1evil.fs 1) = some 0 ∧
    totalMdFiles c1cfg c1evil.fs = 1 := by
  refine ⟨rfl, by decide, by decide⟩

theorem reach_rebuild_consistent_witness :
    sumColumnCounts c1cfg (rebuildIndex c1cfg (initBoard c1cfg 0).fs 1) =
      some ((totalMdFiles c1cfg (initBoard c1cfg 0).fs : Int)) ∧
    ∀ id e, aLookup (rebuildIndex c1cfg (initBoard c1cfg 0).fs 1).tasks id = some e →
      ∃ col ∈ c1cfg.columns, e.status = col.id ∧
        ∃ d, dirFiles (initBoard c1cfg 0).fs col.id = some d ∧
          ∃ f ∈ mdFiles d, decodeFile col.id f = some (id, e) :=
  reach_rebuild_consistent c1cfg (initBoard c1cfg 0) (Reach.init 0) (by decide) 1

end Flatban
